import Mathlib

/-!
Verification development for the receipt field-extraction and ledger
reconciliation logic of a Telegram receipt bot (src/better1.py), as a
shallow embedding in Lean 4.

Modelling conventions:
* Python strings are Lean `String` / `List Char`.
* Each Python regex used by the program is hand-translated to a
  deterministic matcher reproducing the leftmost-match, greedy semantics
  of that concrete pattern; wherever the pattern could in principle
  backtrack, a note explains why backtracking cannot change the result
  for that pattern, or the backtracking is implemented explicitly.
* The regex class \s is modelled as ASCII whitespace; \w as ASCII
  alphanumerics, underscore, and all codepoints at or above 128 (the
  texts this program handles contain no non-ASCII punctuation).
* A Python float built from the amount strings this program produces
  (digit strings with at most two decimals) is modelled exactly as a
  count of cents; str() of such a float is its shortest decimal form,
  which for these values drops trailing zero cents and prints an
  integral value with a trailing .0.
-/

namespace ReceiptBot

/-! ## Basic character and string utilities -/

/-- Python regex \s and str.strip() whitespace, ASCII fragment. -/
def isWs (c : Char) : Bool :=
  c = ' ' || c = '\t' || c = '\n' || c = '\r' || c = '\x0b' || c = '\x0c'

def isDigitComma (c : Char) : Bool := c.isDigit || c = ','

/-- Python str.strip(). -/
def pyStrip (l : List Char) : List Char :=
  ((l.dropWhile isWs).reverse.dropWhile isWs).reverse

def pyStripS (s : String) : String := String.mk (pyStrip s.data)

def lowerL (l : List Char) : List Char := l.map Char.toLower

/-- Case-sensitive literal match; returns the rest after the literal. -/
def matchLit : List Char → List Char → Option (List Char)
  | [], l => some l
  | _ :: _, [] => none
  | p :: ps, c :: cs => if p = c then matchLit ps cs else none

/-- Case-insensitive (ASCII) literal match; the pattern is given lowercase. -/
def matchLitCI : List Char → List Char → Option (List Char)
  | [], l => some l
  | _ :: _, [] => none
  | p :: ps, c :: cs => if p = c.toLower then matchLitCI ps cs else none

def lit (p : String) (l : List Char) : Option (List Char) := matchLit p.data l

def litCI (p : String) (l : List Char) : Option (List Char) := matchLitCI p.data l

def startsL : List Char → List Char → Bool
  | [], _ => true
  | _ :: _, [] => false
  | p :: ps, c :: cs => p = c && startsL ps cs

/-- Python substring containment (the `in` operator). -/
def containsL (p : List Char) : List Char → Bool
  | [] => p.isEmpty
  | c :: t => startsL p (c :: t) || containsL p t

def containsS (p : String) (l : List Char) : Bool := containsL p.data l

def skipWs (l : List Char) : List Char := l.dropWhile isWs

/-- The regex fragment [:\s]* consumed greedily. -/
def skipColonWs (l : List Char) : List Char :=
  l.dropWhile (fun c => c = ':' || isWs c)

/-- The regex fragment \s+ : at least one whitespace, consumed greedily. -/
def wsPlus : List Char → Option (List Char)
  | [] => none
  | c :: t => if isWs c then some (t.dropWhile isWs) else none

/-! ## Decimal rendering and the Python float model -/

def digitVal (c : Char) : Nat := c.toNat - 48

def digitChar (n : Nat) : Char := Char.ofNat (48 + n)

def digitsToNat (l : List Char) : Nat := l.foldl (fun a c => a * 10 + digitVal c) 0

def natToCharsAux : Nat → Nat → List Char
  | 0, _ => []
  | fuel + 1, n =>
    if n < 10 then [digitChar n]
    else natToCharsAux fuel (n / 10) ++ [digitChar (n % 10)]

def natToChars (n : Nat) : List Char := natToCharsAux (n + 1) n

def natStr (n : Nat) : String := String.mk (natToChars n)

def stripCommas (l : List Char) : List Char := l.filter (fun c => c ≠ ',')

def fracCents : List Char → Nat
  | [] => 0
  | [a] => 10 * digitVal a
  | a :: b :: _ => 10 * digitVal a + digitVal b

/-- Model of Python float() on the strings this program feeds it
(digits with an optional dot and at most two fraction digits), in cents.
Inputs float() would reject give none, as does a fraction longer than two
digits (such strings do not reach this model in the claims below). -/
def pyFloatCents (l : List Char) : Option Nat :=
  let ip := l.takeWhile (fun c => c ≠ '.')
  match l.dropWhile (fun c => c ≠ '.') with
  | [] =>
    if !ip.isEmpty && ip.all Char.isDigit then some (100 * digitsToNat ip) else none
  | _ :: fr =>
    if ip.all Char.isDigit && fr.all Char.isDigit && fr.length ≤ 2 &&
        (!ip.isEmpty || !fr.isEmpty) then
      some (100 * digitsToNat ip + fracCents fr)
    else none

/-- Model of Python str() on a float holding an exact cents value:
shortest decimal form, keeping at least one fraction digit. -/
def pyFloatStrS (c : Nat) : List Char :=
  if c % 100 = 0 then natToChars (c / 100) ++ ['.', '0']
  else if c % 10 = 0 then natToChars (c / 100) ++ ['.', digitChar ((c % 100) / 10)]
  else natToChars (c / 100) ++ ['.', digitChar ((c % 100) / 10), digitChar (c % 10)]

def pyFloatStr (c : Nat) : String := String.mk (pyFloatStrS c)

/-! ## Amount extraction: the regex matchers of extract_amount_from_receipt

The capture group in every amount pattern is `[0-9,]+(?:\.[0-9]{2})?`:
a greedy digit-or-comma run and an optional exactly-two-digit fraction. -/

def matchAmtGroup (l : List Char) : Option (List Char × List Char) :=
  let d := l.takeWhile isDigitComma
  let r := l.dropWhile isDigitComma
  if d.isEmpty then none
  else
    match r with
    | '.' :: a :: b :: r2 =>
      if a.isDigit && b.isDigit then some (d ++ '.' :: a :: b :: [], r2)
      else some (d, r)
    | _ => some (d, r)

/-- Ordered regex alternation of literals, each followed by continuation k. -/
def tryAlts (ps : List String) (k : List Char → Option (List Char × List Char))
    (l : List Char) : Option (List Char × List Char) :=
  match ps with
  | [] => none
  | p :: rest => (litCI p l >>= k) <|> tryAlts rest k l

/-- Pattern: settled\s+amount[:\s]*ETB\s*GROUP (ignorecase).
All class boundaries are disjoint, so greedy matching needs no backtracking. -/
def tryP1 (l : List Char) : Option (List Char × List Char) :=
  litCI "settled" l >>= fun r1 =>
  wsPlus r1 >>= fun r2 =>
  litCI "amount" r2 >>= fun r3 =>
  litCI "etb" (skipColonWs r3) >>= fun r4 =>
  matchAmtGroup (skipWs r4)

def vatLabelsA : List String :=
  ["subtotal", "sub-total", "sub total", "before vat", "excluding vat",
   "excl. vat", "excl vat"]

def vatLabelsB : List String := ["before vat", "excluding vat", "excl. vat", "excl vat"]

def currAlts : List String := ["etb", "birr", "ብር"]

/-- Pattern: (subtotal|...|excl\.? vat)[:\s]*(?:ETB|birr|ብር)?\s*GROUP.
If the optional currency matches but no group follows, the regex engine
retries without the currency; both branches are implemented. -/
def tryP2a (l : List Char) : Option (List Char × List Char) :=
  tryAlts vatLabelsA (fun r =>
    let r2 := skipColonWs r
    (tryAlts currAlts (fun r3 => matchAmtGroup (skipWs r3)) r2) <|>
      matchAmtGroup r2) l

/-- Pattern: GROUP\s*(before vat|excluding vat|excl\.? vat).
Backtracking inside the digit run cannot help (a shrunk run is followed by
a digit or comma, never whitespace, a dot, or a label), so only the
take-fraction and drop-fraction branches are tried. -/
def tryP2b (l : List Char) : Option (List Char × List Char) :=
  let d := l.takeWhile isDigitComma
  let r := l.dropWhile isDigitComma
  if d.isEmpty then none
  else
    (match r with
     | '.' :: a :: b :: r2 =>
       if a.isDigit && b.isDigit then
         tryAlts vatLabelsB (fun rr => some (d ++ '.' :: a :: b :: [], rr)) (skipWs r2)
       else none
     | _ => none) <|>
    tryAlts vatLabelsB (fun rr => some (d, rr)) (skipWs r)

/-- Pattern: ETB\s*GROUP\s+debited (ignorecase). When the greedy group
succeeds but \s+debited fails, every regex backtrack also fails (a shorter
group is followed by a digit, comma or dot, never whitespace). -/
def tryP3 (l : List Char) : Option (List Char × List Char) :=
  litCI "etb" l >>= fun r1 =>
  matchAmtGroup (skipWs r1) >>= fun gr =>
  wsPlus gr.2 >>= fun r3 =>
  litCI "debited" r3 >>= fun _ =>
  some gr

/-- Lazy .*?ETB\s*GROUP : expand the dot (which cannot cross a newline)
one character at a time, trying the tail at each position. -/
def lazyToETB : List Char → Option (List Char × List Char)
  | [] => none
  | c :: t =>
    ((litCI "etb" (c :: t)) >>= fun r => matchAmtGroup (skipWs r)) <|>
    (if c = '\n' then none else lazyToETB t)

/-- standard pattern 1: (?:debited|Debited|DEBITED).*?ETB\s*GROUP (ignorecase). -/
def tryS1 (l : List Char) : Option (List Char × List Char) :=
  litCI "debited" l >>= lazyToETB

/-- Lazy tail of standard pattern 2: .*?(?:ETB|birr)?\s*GROUP. At each dot
position the greedy optional currency is tried first, then the bare
\s*GROUP, then the dot expands (never across a newline). -/
def lazyS2 : List Char → Option (List Char × List Char)
  | [] => none
  | c :: t =>
    (tryAlts ["etb", "birr"] (fun r => matchAmtGroup (skipWs r)) (c :: t)) <|>
    (matchAmtGroup (skipWs (c :: t))) <|>
    (if c = '\n' then none else lazyS2 t)

/-- standard pattern 2: (?:Amount|amount|AMOUNT).*?(?:ETB|birr)?\s*GROUP. -/
def tryS2 (l : List Char) : Option (List Char × List Char) :=
  litCI "amount" l >>= lazyS2

/-- standard pattern 3: (?:ETB|birr|ብር)\s*GROUP. -/
def tryS3 (l : List Char) : Option (List Char × List Char) :=
  tryAlts currAlts (fun r => matchAmtGroup (skipWs r)) l

/-- standard pattern 4: GROUP\s*(?:ETB|birr|ብር); digit-run backtracking
cannot help, as for tryP2b. -/
def tryS4 (l : List Char) : Option (List Char × List Char) :=
  let d := l.takeWhile isDigitComma
  let r := l.dropWhile isDigitComma
  if d.isEmpty then none
  else
    (match r with
     | '.' :: a :: b :: r2 =>
       if a.isDigit && b.isDigit then
         tryAlts currAlts (fun rr => some (d ++ '.' :: a :: b :: [], rr)) (skipWs r2)
       else none
     | _ => none) <|>
    tryAlts currAlts (fun rr => some (d, rr)) (skipWs r)

/-- re.search: leftmost match; returns (start index, group, rest after match). -/
def searchIdx (tryAt : List Char → Option (List Char × List Char)) :
    Nat → List Char → Option (Nat × List Char × List Char)
  | i, [] =>
    match tryAt [] with
    | some (g, r) => some (i, g, r)
    | none => none
  | i, c :: t =>
    match tryAt (c :: t) with
    | some (g, r) => some (i, g, r)
    | none => searchIdx tryAt (i + 1) t

/-- re.finditer: non-overlapping matches left to right, with start indices.
Fuel bounds the recursion; every pattern here consumes at least one
character per match, so fuel = length + 1 is enough. -/
def finditerAux (tryAt : List Char → Option (List Char × List Char)) :
    Nat → Nat → List Char → List (Nat × List Char)
  | 0, _, _ => []
  | fuel + 1, i, l =>
    match searchIdx tryAt i l with
    | none => []
    | some (j, g, r) =>
      (j, g) :: finditerAux tryAt fuel (i + (l.length - r.length)) r

def finditer (tryAt : List Char → Option (List Char × List Char))
    (l : List Char) : List (Nat × List Char) :=
  finditerAux tryAt (l.length + 1) 0 l

/-! ## Amount extraction: the priority chain -/

/-- Words whose presence near a candidate excludes it in priority 4. -/
def amountBadCtx : List String := ["total", "with commission", "service charge", "vat"]

/-- Candidate context window check: text[max(0,j-30) : j+100] must contain
none of the excluded words, case-insensitively. -/
def ctxOk (cs : List Char) (j : Nat) : Bool :=
  let sl := lowerL ((cs.drop (j - 30)).take (j + 100 - (j - 30)))
  !(amountBadCtx.any (fun p => containsS p sl))

/-- Shared accept step: strip commas, parse as float, require value > 50. -/
def acceptGroup (g : List Char) : Option (List Char) :=
  let s := stripCommas g
  match pyFloatCents s with
  | some c => if 5000 < c then some s else none
  | none => none

def p1Pass (cs : List Char) : Option (List Char) :=
  match searchIdx tryP1 0 cs with
  | some (_, g, _) => acceptGroup g
  | none => none

def p2Pass (cs : List Char) : Option (List Char) :=
  (match searchIdx tryP2a 0 cs with
   | some (_, g, _) => acceptGroup g
   | none => none) <|>
  (match searchIdx tryP2b 0 cs with
   | some (_, g, _) => acceptGroup g
   | none => none)

/-- Priority 3: the debited pattern, rejected when the 50 characters before
the match contain the word total. -/
def p3Pass (cs : List Char) : Option (List Char) :=
  match searchIdx tryP3 0 cs with
  | some (j, g, _) =>
    match pyFloatCents (stripCommas g) with
    | some c =>
      if 5000 < c && !containsS "total" (lowerL ((cs.take j).drop (j - 50))) then
        some (stripCommas g)
      else none
    | none => none
  | none => none

def listMin : List Nat → Option Nat
  | [] => none
  | h :: t => some (t.foldl Nat.min h)

def p4Candidates (cs : List Char) : List (Nat × List Char) :=
  finditer tryS1 cs ++ finditer tryS2 cs ++ finditer tryS3 cs ++ finditer tryS4 cs

def p4Vals (cs : List Char) : List Nat :=
  (p4Candidates cs).filterMap (fun m =>
    match pyFloatCents (stripCommas m.2) with
    | some c => if 5000 < c && ctxOk cs m.1 then some c else none
    | none => none)

/-- Priority 4: collect all surviving candidates and return the smallest,
rendered through str(float). -/
def p4Pass (cs : List Char) : Option (List Char) :=
  match listMin (p4Vals cs) with
  | some v => some (pyFloatStrS v)
  | none => none

def stdPass (cs : List Char) : Option (List Char) :=
  p1Pass cs <|> p2Pass cs <|> p3Pass cs <|> p4Pass cs

/-- Final-fallback pattern 1 group: ([0-9,]+\.00)\s*Birr (ignorecase). -/
def tryF1 (l : List Char) : Option (List Char × List Char) :=
  let d := l.takeWhile isDigitComma
  if d.isEmpty then none
  else
    match l.dropWhile isDigitComma with
    | '.' :: '0' :: '0' :: r2 =>
      (litCI "birr" (skipWs r2)).map (fun rr => (d ++ ['.', '0', '0'], rr))
    | _ => none

/-- Final-fallback pattern 2 group: ([0-9,]+\.[0-9]{2})\s*(?:Birr|ETB). -/
def tryF2 (l : List Char) : Option (List Char × List Char) :=
  let d := l.takeWhile isDigitComma
  if d.isEmpty then none
  else
    match l.dropWhile isDigitComma with
    | '.' :: a :: b :: r2 =>
      if a.isDigit && b.isDigit then
        tryAlts ["birr", "etb"] (fun rr => some (d ++ ['.', a, b], rr)) (skipWs r2)
      else none
    | _ => none

def fbAccept (g : List Char) : Bool :=
  match pyFloatCents (stripCommas g) with
  | some c => 5000 < c
  | none => false

/-- The fallback patterns start with (?:^|\n|\s) under MULTILINE: the group
may begin at the start of a line or after one consumed whitespace.
Matches are scanned left to right, non-overlapping; the first with value
over 50 is returned. -/
def fbScanAux (tryG : List Char → Option (List Char × List Char)) :
    Nat → Bool → List Char → Option (List Char)
  | 0, _, _ => none
  | fuel + 1, atStart, l =>
    match (if atStart then tryG l else none) <|>
          (match l with
           | c :: t => if isWs c then tryG t else none
           | [] => none) with
    | some (g, r) =>
      if fbAccept g then some (stripCommas g)
      else fbScanAux tryG fuel false r
    | none =>
      match l with
      | [] => none
      | c :: t => fbScanAux tryG fuel (c = '\n') t

def fbScan (tryG : List Char → Option (List Char × List Char))
    (l : List Char) : Option (List Char) :=
  fbScanAux tryG (l.length + 1) true l

def fallbackPass (cs : List Char) : Option (List Char) :=
  fbScan tryF1 cs <|> fbScan tryF2 cs

/-! ## normalize_amount_lines -/

/-- Python str.split on a newline. -/
def splitNl : List Char → List (List Char)
  | [] => [[]]
  | c :: t =>
    if c = '\n' then [] :: splitNl t
    else
      match splitNl t with
      | h :: r => (c :: h) :: r
      | [] => [[c]]

def amountLabels : List String :=
  ["settled amount", "settled", "amount paid", "paid", "debited", "credited",
   "subtotal", "sub-total", "sub total", "total amount"]

/-- re.match of ^[0-9,]+\.[0-9]{2} : anchored at the start. -/
def startsNumDec (l : List Char) : Bool :=
  let d := l.takeWhile isDigitComma
  !d.isEmpty &&
    (match l.dropWhile isDigitComma with
     | '.' :: a :: b :: _ => a.isDigit && b.isDigit
     | _ => false)

/-- next_line.upper().startswith of ETB, i.e. a case-insensitive test. -/
def startsETBci (l : List Char) : Bool := startsL "etb".data (lowerL l)

/-- The line-joining loop of normalize_amount_lines: empty lines are
dropped, a label line is merged with a following currency-value line. -/
def normLines : List (List Char) → List (List Char)
  | [] => []
  | [line] =>
    let s := pyStrip line
    if s.isEmpty then [] else [s]
  | line :: next :: rest =>
    let s := pyStrip line
    if s.isEmpty then normLines (next :: rest)
    else
      let hasLabel := amountLabels.any (fun lb => containsS lb (lowerL s))
      let ns := pyStrip next
      if hasLabel && !ns.isEmpty && (startsETBci ns || startsNumDec ns) then
        (s ++ ' ' :: ns) :: normLines rest
      else
        s :: normLines (next :: rest)

def joinNl : List (List Char) → List Char
  | [] => []
  | [l] => l
  | l :: l2 :: r => l ++ '\n' :: joinNl (l2 :: r)

def normalizeAmountLinesL (cs : List Char) : List Char :=
  joinNl (normLines (splitNl cs))

def normalize_amount_lines (s : String) : String :=
  String.mk (normalizeAmountLinesL s.data)

/-- extract_amount_from_receipt: the priority chain is run on the
normalized text, then on the original text, and the final fallback runs on
the original text (the loop variable after the loop). Empty string means
no amount found. -/
def extractAmountL (cs : List Char) : Option (List Char) :=
  stdPass (normalizeAmountLinesL cs) <|> stdPass cs <|> fallbackPass cs

def extract_amount_from_receipt (s : String) : String :=
  match extractAmountL s.data with
  | some r => String.mk r
  | none => ""

/-! ## Calendar conversion tables and convert_to_ethiopian_month -/

def lowerS (s : String) : String := String.mk (lowerL s.data)

def ETHIOPIAN_MONTHS_LIST : List String :=
  ["Meskerem", "Tikimt", "Hidar", "Tahsas", "Tir", "Yekatit", "Megabit",
   "Miyazya", "Ginbot", "Sene", "Hamle", "Nehase", "Pagume"]

def AMHARIC_TO_ETHIOPIAN : List (String × String) :=
  [("መስከረም", "Meskerem"), ("የመስከረም", "Meskerem"),
   ("ጥቅምት", "Tikimt"), ("የጥቅምት", "Tikimt"), ("ጥቅም", "Tikimt"), ("የጥቅም", "Tikimt"),
   ("ህዳር", "Hidar"), ("የህዳር", "Hidar"), ("የሕዳር", "Hidar"), ("ሕዳር", "Hidar"),
   ("ታህሳስ", "Tahsas"), ("የታህሳስ", "Tahsas"), ("ታህሳ", "Tahsas"), ("የታህሳ", "Tahsas"),
   ("ጥር", "Tir"), ("የጥር", "Tir"),
   ("የካቲት", "Yekatit"), ("የካት", "Yekatit"),
   ("መጋቢት", "Megabit"), ("የመጋቢት", "Megabit"), ("መጋቢ", "Megabit"), ("የመጋቢ", "Megabit"),
   ("ሚያዝያ", "Miyazya"), ("የሚያዝያ", "Miyazya"), ("ሚያዝ", "Miyazya"), ("የሚያዝ", "Miyazya"),
   ("ግንቦት", "Ginbot"), ("የግንቦት", "Ginbot"), ("ግንቦ", "Ginbot"), ("የግንቦ", "Ginbot"),
   ("ሰኔ", "Sene"), ("የሰኔ", "Sene"),
   ("ሐምሌ", "Hamle"), ("የሐምሌ", "Hamle"),
   ("ነሐሴ", "Nehase"), ("የነሐሴ", "Nehase"),
   ("ጳጉሜ", "Pagume"), ("የጳጉሜ", "Pagume")]

/-- The Gregorian entries of the conversion dict, in insertion order (the
shortened entry for may collapses onto the earlier full entry). -/
def GREGORIAN_BASE : List (String × String) :=
  [("january", "Tir"), ("february", "Yekatit"), ("march", "Megabit"),
   ("april", "Miyazya"), ("may", "Ginbot"), ("june", "Sene"), ("july", "Hamle"),
   ("august", "Nehase"), ("september", "Pagume"), ("october", "Meskerem"),
   ("november", "Tikimt"), ("december", "Hidar"),
   ("jan", "Tir"), ("feb", "Yekatit"), ("mar", "Megabit"), ("apr", "Miyazya"),
   ("jun", "Sene"), ("jul", "Hamle"), ("aug", "Nehase"), ("sep", "Pagume"),
   ("oct", "Meskerem"), ("nov", "Tikimt"), ("dec", "Hidar")]

/-- GREGORIAN_TO_ETHIOPIAN after the module-level merges: the Gregorian
entries, the lower-cased Ethiopian month names, the hedar alternate
spelling, and every Amharic entry; dict iteration order is insertion order. -/
def GREGORIAN_TO_ETHIOPIAN : List (String × String) :=
  GREGORIAN_BASE ++ ETHIOPIAN_MONTHS_LIST.map (fun m => (lowerS m, m)) ++
    [("hedar", "Hidar")] ++ AMHARIC_TO_ETHIOPIAN

def convert_to_ethiopian_month (text : String) : String :=
  let tl := lowerL text.data
  match ETHIOPIAN_MONTHS_LIST.find? (fun m =>
      containsL (lowerL m.data) tl || containsL m.data text.data) with
  | some m => m
  | none =>
    match AMHARIC_TO_ETHIOPIAN.find? (fun p => containsL p.1.data text.data) with
    | some p => p.2
    | none =>
      match GREGORIAN_TO_ETHIOPIAN.find? (fun p => containsL p.1.data tl) with
      | some p => p.2
      | none => ""

/-- True when the text contains no entry of any month table, under the
same containment tests convert_to_ethiopian_month applies. -/
def monthEntryAbsent (t : String) : Bool :=
  let tl := lowerL t.data
  ETHIOPIAN_MONTHS_LIST.all (fun m =>
    !(containsL (lowerL m.data) tl || containsL m.data t.data)) &&
  AMHARIC_TO_ETHIOPIAN.all (fun p => !containsL p.1.data t.data) &&
  GREGORIAN_TO_ETHIOPIAN.all (fun p => !containsL p.1.data tl)

/-! ## normalize_name and validate_beneficiary -/

def upperL (l : List Char) : List Char := l.map Char.toUpper

/-- re.sub of AND\s*/\s*OR by AND OR (on the upper-cased string, so the
pattern is case-sensitive here); leftmost, non-overlapping. -/
def subAndOr : Nat → List Char → List Char
  | 0, l => l
  | _, [] => []
  | fuel + 1, c :: t =>
    match lit "AND" (c :: t) >>= fun r1 =>
          lit "/" (skipWs r1) >>= fun r2 =>
          lit "OR" (skipWs r2) with
    | some r => 'A' :: 'N' :: 'D' :: ' ' :: 'O' :: 'R' :: subAndOr fuel r
    | none => c :: subAndOr fuel t

/-- re.sub of & by AND. -/
def subAmp : List Char → List Char
  | [] => []
  | c :: t => if c = '&' then 'A' :: 'N' :: 'D' :: subAmp t else c :: subAmp t

/-- Python regex \w, modelled as ASCII alphanumerics, underscore, and all
codepoints at or above 128. -/
def isWordC (c : Char) : Bool := c.isAlphanum || c = '_' || 128 ≤ c.toNat

/-- re.sub of [^\w\s] by a space. -/
def punctToSpace (l : List Char) : List Char :=
  l.map (fun c => if !isWordC c && !isWs c then ' ' else c)

/-- re.sub of \s+ by a single space (fuel-based so the kernel can
evaluate it; fuel at the length of the list is always enough). -/
def collapseWsAux : Nat → List Char → List Char
  | 0, l => l
  | _, [] => []
  | fuel + 1, c :: t =>
    if isWs c then ' ' :: collapseWsAux fuel (t.dropWhile isWs)
    else c :: collapseWsAux fuel t

def collapseWs (l : List Char) : List Char := collapseWsAux (l.length + 1) l

def normalize_name (s : String) : String :=
  if s = "" then ""
  else
    let u := upperL s.data
    String.mk (pyStrip (collapseWs (punctToSpace (subAmp (subAndOr (u.length + 1) u)))))

/-- Python str.split(): tokens separated by whitespace runs. -/
def splitWsAux : List Char → List Char → List (List Char)
  | [], acc => if acc.isEmpty then [] else [acc.reverse]
  | c :: t, acc =>
    if isWs c then
      if acc.isEmpty then splitWsAux t [] else acc.reverse :: splitWsAux t []
    else splitWsAux t (c :: acc)

def splitWsTokens (l : List Char) : List (List Char) := splitWsAux l []

def connectors : List String :=
  ["AND", "OR", "ANDOR", "THE", "OF", "TO", "A", "AN", "&", "/"]

def authorized_tokens : List String :=
  ["SEYOUM", "SEYSOA", "SEYSOM", "SEYSUM", "SEYOAM",
   "ASSEFA", "ASEFA", "ASEFFA",
   "SENAIT", "SENIET", "SENAYT", "SENAITE",
   "DAGNIE", "DAGNE", "DAGINE", "DAGNY", "DAGNHE"]

/-- The tokens of the normalized beneficiary with connector words removed
(the program forms sets; only emptiness of the intersection matters). -/
def cleanedTokens (s : String) : List String :=
  ((splitWsTokens (normalize_name s).data).map String.mk).filter
    (fun t => !connectors.contains t)

def validate_beneficiary (s : String) : Bool × String :=
  if s = "" then (false, "")
  else
    let normalized := normalize_name s
    if (cleanedTokens s).any (fun t => authorized_tokens.contains t) then
      (true, normalized)
    else (false, normalized)

/-! ## extract_house_from_caption -/

/-- Greedy optional character class: consume one of cs if possible, with a
backtracking retry without consuming. -/
def optC (cs : List Char) (k : List Char → Option (List Char × List Char))
    (l : List Char) : Option (List Char × List Char) :=
  (match l with
   | c :: t => if cs.contains c then k t else none
   | [] => none) <|> k l

/-- The shared tail \s*[:.]?\s*(\d{3,4}) of the house patterns; the group is
greedy, taking four digits when available and at least three. -/
def hcTail (l : List Char) : Option (List Char × List Char) :=
  optC [':', '.'] (fun l2 =>
    let l3 := skipWs l2
    let d := (l3.takeWhile Char.isDigit).take 4
    if 3 ≤ d.length then some (d, l3.drop d.length) else none) (skipWs l)

/-- Pattern: ቤት\s*ቁጥር\s*[:.]?\s*(\d{3,4}). -/
def tryH1 (l : List Char) : Option (List Char × List Char) :=
  lit "ቤት" l >>= fun r1 =>
  lit "ቁጥር" (skipWs r1) >>= hcTail

/-- Pattern: (?:H\.?\s*No\.?|H-No\.?|House)\s*[:.]?\s*(\d{3,4}) (ignorecase). -/
def tryH2 (l : List Char) : Option (List Char × List Char) :=
  (litCI "h" l >>= fun r1 =>
    optC ['.'] (fun r2 => litCI "no" (skipWs r2) >>= fun r3 => optC ['.'] hcTail r3) r1) <|>
  (litCI "h-no" l >>= fun r => optC ['.'] hcTail r) <|>
  (litCI "house" l >>= hcTail)

/-- Pattern: ቁጥር?\s*[:.]?\s*(\d{3,4}) — the literal is ቁጥ with an optional ር. -/
def tryH3 (l : List Char) : Option (List Char × List Char) :=
  lit "ቁጥ" l >>= fun r => optC ['ር'] hcTail r

/-- re.sub of https?://\S+ by the empty string. -/
def subUrl : Nat → List Char → List Char
  | 0, l => l
  | _, [] => []
  | fuel + 1, c :: t =>
    match (lit "https://" (c :: t)) <|> (lit "http://" (c :: t)) with
    | some r =>
      if (r.takeWhile (fun x => !isWs x)).isEmpty then c :: subUrl fuel t
      else subUrl fuel (r.dropWhile (fun x => !isWs x))
    | none => c :: subUrl fuel t

/-- re.sub of FT\d+\w* by the empty string (case-sensitive). -/
def subFt : Nat → List Char → List Char
  | 0, l => l
  | _, [] => []
  | fuel + 1, c :: t =>
    match lit "FT" (c :: t) with
    | some r =>
      if (r.takeWhile Char.isDigit).isEmpty then c :: subFt fuel t
      else subFt fuel ((r.dropWhile Char.isDigit).dropWhile isWordC)
    | none => c :: subFt fuel t

/-- re.findall of [0-9]+ : maximal digit runs. -/
def numRunsAux : List Char → List Char → List (List Char)
  | [], acc => if acc.isEmpty then [] else [acc.reverse]
  | c :: t, acc =>
    if c.isDigit then numRunsAux t (c :: acc)
    else if acc.isEmpty then numRunsAux t [] else acc.reverse :: numRunsAux t []

def allNumRuns (l : List Char) : List (List Char) := numRunsAux l []

/-- Keep 3-4 digit runs, discarding 4-digit years (19.. / 20..) and runs
ending in 0. -/
def validHouseNums (l : List (List Char)) : List (List Char) :=
  l.filter (fun n =>
    (n.length = 3 || n.length = 4) &&
    !(n.length = 4 && (startsL "19".data n || startsL "20".data n)) &&
    !(n.getLast? = some '0'))

def houseScanNums (cs : List Char) : List (List Char) :=
  validHouseNums (allNumRuns (subFt (cs.length + 1) (subUrl (cs.length + 1) cs)))

def anyPos (p : List Char → Bool) : List Char → Bool
  | [] => p []
  | c :: t => p (c :: t) || anyPos p t

/-- One alternative of the keyword regex: H\.?No (ignorecase). -/
def tryHNoKw (l : List Char) : Bool :=
  match litCI "h" l with
  | some r =>
    (litCI "no" r).isSome ||
      (match r with
       | '.' :: t => (litCI "no" t).isSome
       | _ => false)
  | none => false

/-- re.search of ቁ|ብሎክ|ወር|H\.?No|Block (ignorecase), as a presence test. -/
def hasHouseKeywords (l : List Char) : Bool :=
  containsS "ቁ" l || containsS "ብሎክ" l || containsS "ወር" l ||
    anyPos tryHNoKw l || containsL "block".data (lowerL l)

/-- The candidate (group, rest) readings of \d{1,2}, greedy order. -/
def d12 : List Char → List (List Char × List Char)
  | [] => []
  | [a] => if a.isDigit then [([a], [])] else []
  | a :: b :: t =>
    if a.isDigit then
      if b.isDigit then [([a, b], t), ([a], b :: t)] else [([a], b :: t)]
    else []

def pick2 (cands : List (List Char × List Char))
    (k : List Char → List Char → Option (List Char × List Char)) :
    Option (List Char × List Char) :=
  match cands with
  | [] => none
  | (g, r) :: rest => k g r <|> pick2 rest k

/-- Pattern: (\d{1,2})\s*/\s*(\d{1,2}), with the combined digits as group. -/
def trySlash (l : List Char) : Option (List Char × List Char) :=
  pick2 (d12 l) (fun g1 r1 =>
    match skipWs r1 with
    | '/' :: r3 =>
      match d12 (skipWs r3) with
      | (g2, r5) :: _ => some (g1 ++ g2, r5)
      | [] => none
    | _ => none)

/-- Pattern: (\d{1,2})\s+(\d{1,2}), with the combined digits as group. -/
def trySpace (l : List Char) : Option (List Char × List Char) :=
  pick2 (d12 l) (fun g1 r1 =>
    wsPlus r1 >>= fun r2 =>
    match d12 r2 with
    | (g2, r5) :: _ => some (g1 ++ g2, r5)
    | [] => none)

def extract_house_from_caption (caption : String) : String :=
  if caption = "" then ""
  else
    let cs := caption.data
    match searchIdx tryH1 0 cs with
    | some (_, g, _) => String.mk g
    | none =>
    match searchIdx tryH2 0 cs with
    | some (_, g, _) => String.mk g
    | none =>
    match searchIdx tryH3 0 cs with
    | some (_, g, _) => String.mk g
    | none =>
      match houseScanNums cs with
      | v :: vs =>
        if hasHouseKeywords cs || cs.length < 100 then String.mk v
        else String.mk ((v :: vs).getLastD [])
      | [] =>
        let spacePart : String :=
          match searchIdx trySpace 0 cs with
          | some (_, g, _) =>
            if g.length = 3 || g.length = 4 then String.mk g else ""
          | none => ""
        match searchIdx trySlash 0 cs with
        | some (_, g, _) =>
          if g.length = 3 || g.length = 4 then String.mk g else spacePart
        | none => spacePart

/-! ## extract_payment_data_buffered: edit-mode disambiguation for house
and amount (the fields claims C1, C4 and C10 are about; the other fields
of the returned dict do not feed back into these two) -/

def isDigitDot (c : Char) : Bool := c.isDigit || c = '.'

/-- The regex fragment [:\s]+ : at least one colon-or-whitespace. -/
def colonWsPlus : List Char → Option (List Char)
  | [] => none
  | c :: t =>
    if c = ':' || isWs c then some (t.dropWhile (fun x => x = ':' || isWs x))
    else none

/-- Pattern: (?:amount|birr|ብር)[:\s]+([0-9.]+) on the lowered user text. -/
def tryEA1 (l : List Char) : Option (List Char × List Char) :=
  tryAlts ["amount", "birr", "ብር"] (fun r =>
    colonWsPlus r >>= fun r2 =>
    let d := r2.takeWhile isDigitDot
    if d.isEmpty then none else some (d, r2.drop d.length)) l

/-- Pattern: ([0-9.]+)\s*(?:birr|ብር). -/
def tryEA2 (l : List Char) : Option (List Char × List Char) :=
  let d := l.takeWhile isDigitDot
  if d.isEmpty then none
  else tryAlts ["birr", "ብር"] (fun rr => some (d, rr)) (skipWs (l.dropWhile isDigitDot))

/-- Pattern: (?:house|ቤት|home)[:\s]+([0-9]{3,4}). -/
def tryEH (l : List Char) : Option (List Char × List Char) :=
  tryAlts ["house", "ቤት", "home"] (fun r =>
    colonWsPlus r >>= fun r2 =>
    let d := (r2.takeWhile Char.isDigit).take 4
    if 3 ≤ d.length then some (d, r2.drop d.length) else none) l

/-- Pattern: (?:month|ወር)[:\s]+(\w+). -/
def tryEM (l : List Char) : Option (List Char × List Char) :=
  tryAlts ["month", "ወር"] (fun r =>
    colonWsPlus r >>= fun r2 =>
    let d := r2.takeWhile isWordC
    if d.isEmpty then none else some (d, r2.drop d.length)) l

/-- re.match of ^[0-9.]+$ on the stripped user text. -/
def isBareNumber (l : List Char) : Bool := !l.isEmpty && l.all isDigitDot

def searchGroup (tryAt : List Char → Option (List Char × List Char))
    (l : List Char) : Option (List Char) :=
  match searchIdx tryAt 0 l with
  | some (_, g, _) => some g
  | none => none

/-- user_text.lower().strip() of the edit-mode disambiguation. -/
def userLowerOf (user : String) : List Char := pyStrip (lowerL user.data)

def explicitAmountOf (user : String) : Option (List Char) :=
  match searchGroup tryEA1 (userLowerOf user) with
  | some g => some g
  | none => searchGroup tryEA2 (userLowerOf user)

def explicitHouseOf (user : String) : Option (List Char) :=
  searchGroup tryEH (userLowerOf user)

def explicitMonthOf (user : String) : Option (List Char) :=
  searchGroup tryEM (userLowerOf user)

structure BufferedHouseAmount where
  house_number : String
  amount : String
deriving DecidableEq, Repr

/-- The house-number and amount resolution of extract_payment_data_buffered
(source lines 1604-1735). original_house is the house_number field of the
stored previous submission when one exists. -/
def extract_payment_data_buffered_core (combined_text caption user_text : String)
    (is_edit_mode : Bool) (original_house : Option String) : BufferedHouseAmount :=
  let combined := if caption ≠ "" then caption ++ "\n" ++ combined_text else combined_text
  let explicitAmount : Option (List Char) :=
    if is_edit_mode && user_text ≠ "" then explicitAmountOf user_text else none
  let explicitHouse : Option (List Char) :=
    if is_edit_mode && user_text ≠ "" then explicitHouseOf user_text else none
  let explicitMonth : Option (List Char) :=
    if is_edit_mode && user_text ≠ "" then explicitMonthOf user_text else none
  let userStripped := pyStrip user_text.data
  let bare := isBareNumber userStripped
  let hb : String × Bool :=
    match explicitHouse with
    | some g => (String.mk g, false)
    | none =>
      if is_edit_mode && user_text ≠ "" then
        if bare || explicitAmount.isSome || explicitMonth.isSome then
          ((match original_house with
            | some h => if h ≠ "" then h else ""
            | none => ""), true)
        else (extract_house_from_caption user_text, false)
      else if user_text ≠ "" then (extract_house_from_caption user_text, false)
      else ("", false)
  let house2 :=
    if hb.1 = "" && caption ≠ "" && !(is_edit_mode && hb.2) then
      extract_house_from_caption caption
    else hb.1
  let house3 :=
    if house2 = "" && !(is_edit_mode && hb.2) then extract_house_from_caption combined
    else house2
  let amount :=
    match explicitAmount with
    | some g => String.mk g
    | none =>
      if is_edit_mode && user_text ≠ "" then
        if bare then String.mk userStripped
        else extract_amount_from_receipt combined
      else extract_amount_from_receipt combined
  ⟨house3, amount⟩

/-! ## The ledger save step of process_buffered_messages (lines 2203-2508)

A sheet is its list of data rows (the two header rows and the leading
sequence/name columns are not modelled); a row holds the house-number cell
and, per month in calendar order, the (amount, reference-id) cell pair.
Row indices below are 0-based over data rows. -/

structure LRow where
  house : String
  cells : List (String × String)
deriving DecidableEq, Repr

abbrev Ledger := List (String × List LRow)

inductive SaveErr where
  | noTargetSheet
  | houseNotFound
  | monthNotFound
  | duplicateTxn (sheetName : String) (rowIdx : Nat)
deriving DecidableEq, Repr

def ETHIOPIAN_MONTHS : List String := ETHIOPIAN_MONTHS_LIST

def lookupSheet (sheets : Ledger) (name : String) : Option (List LRow) :=
  match sheets.find? (fun p => p.1 = name) with
  | some p => some p.2
  | none => none

def findRowIdx (rows : List LRow) (house : String) : Option Nat :=
  rows.findIdx? (fun r => pyStripS r.house = pyStripS house)

def monthIdx (month : String) : Option Nat :=
  ETHIOPIAN_MONTHS.findIdx? (fun m => m = month)

/-- Python split on a single character (keeps empty pieces). -/
def splitOnC (sep : Char) : List Char → List (List Char)
  | [] => [[]]
  | c :: t =>
    if c = sep then [] :: splitOnC sep t
    else
      match splitOnC sep t with
      | h :: r => (c :: h) :: r
      | [] => [[c]]

def commaTokens (s : String) : List String :=
  (splitOnC ',' s.data).map (fun l => String.mk (pyStrip l))

/-- The reference-id cell test used by both the edit-mode delete scan and
the duplicate scan: the stripped cell is non-empty and its comma-split,
stripped tokens contain the stripped transaction id. -/
def cellHasTx (cell : String) (tx : String) : Bool :=
  pyStripS cell ≠ "" && (commaTokens (pyStripS cell)).contains (pyStripS tx)

def findTxCell (cells : List (String × String)) (tx : String) : Option Nat :=
  cells.findIdx? (fun cell => cellHasTx cell.2 tx)

def findClearRowsAux (house tx : String) : List LRow → Nat → Option (Nat × Nat)
  | [], _ => none
  | r :: rest, i =>
    if pyStripS r.house = pyStripS house then
      match findTxCell r.cells tx with
      | some m => some (i, m)
      | none => findClearRowsAux house tx rest (i + 1)
    else findClearRowsAux house tx rest (i + 1)

/-- The edit-mode delete scan: across all sheets in order, the first row
whose house matches that has a reference-id cell containing the new
transaction id; both cells of that month pair get cleared. The source
builds the two A1 addresses here with a single chr call, which produces an
invalid address for the last two month columns (the raised error is
swallowed and the scan moves on); this model takes the successful-clear
behavior, and the theorems below only rely on this scan under a
no-match hypothesis, where source and model agree. -/
def findClearLocAux (house tx : String) : Ledger → Nat → Option (Nat × Nat × Nat)
  | [], _ => none
  | (_, rows) :: rest, si =>
    match findClearRowsAux house tx rows 0 with
    | some (ri, mi) => some (si, ri, mi)
    | none => findClearLocAux house tx rest (si + 1)

def findClearLoc (sheets : Ledger) (house tx : String) : Option (Nat × Nat × Nat) :=
  findClearLocAux house tx sheets 0

def modNth (f : α → α) : Nat → List α → List α
  | _, [] => []
  | 0, x :: t => f x :: t
  | n + 1, x :: t => x :: modNth f n t

theorem modNth_nil {α : Type} (f : α → α) (i : Nat) : modNth f i [] = [] := by
  cases i <;> rfl

def clearCellPair (sheets : Ledger) (si ri mi : Nat) : Ledger :=
  modNth (fun p =>
    (p.1, modNth (fun r => ⟨r.house, modNth (fun _ => ("", "")) mi r.cells⟩) ri p.2)) si sheets

def findDupRowsAux (tx : String) : List LRow → Nat → Option Nat
  | [], _ => none
  | r :: rest, i =>
    match findTxCell r.cells tx with
    | some _ => some i
    | none => findDupRowsAux tx rest (i + 1)

/-- The duplicate scan: every sheet, every row, every reference-id cell. -/
def findDupLoc : Ledger → String → Option (String × Nat)
  | [], _ => none
  | (name, rows) :: rest, tx =>
    match findDupRowsAux tx rows 0 with
    | some i => some (name, i)
    | none => findDupLoc rest tx

def cellAt (rows : List LRow) (ri mi : Nat) : String × String :=
  match rows.get? ri with
  | some r =>
    match r.cells.get? mi with
    | some c => c
    | none => ("", "")
  | none => ("", "")

def dropLeadEq (s : String) : String :=
  match s.data with
  | '=' :: t => String.mk t
  | _ => s

/-- float(data['amount']) followed by its use in an f-string: exact cents
for at-most-two-decimal digit strings, the raw string when float() fails,
and 0 when the amount is empty (that branch is unreachable past the
earlier amount validation). -/
def amountValueStr (amount : String) : String :=
  if amount = "" then "0"
  else
    match pyFloatCents amount.data with
    | some c => pyFloatStr c
    | none => amount

def joinSep (sep : String) : List String → String
  | [] => ""
  | [x] => x
  | x :: y :: r => x ++ sep ++ joinSep sep (y :: r)

/-- The edit-mode cell rewrite (lines 2424-2460): the user's old amount
term and old transaction-id token are removed by literal stripped-string
match, the survivors rejoined, and the new values appended. -/
def editRewrite (currentAmount currentTxid oldAmount oldTxid avStr txid : String) :
    String × String :=
  let remainingAmount :=
    if oldAmount ≠ "" && currentAmount ≠ "" then
      joinSep "+"
        (((splitOnC '+' currentAmount.data).map (fun p => String.mk (pyStrip p))).filter
          (fun p => p ≠ pyStripS oldAmount))
    else currentAmount
  let remainingTxid :=
    if oldTxid ≠ "" && currentTxid ≠ "" then
      joinSep ", "
        (((splitOnC ',' currentTxid.data).map (fun p => String.mk (pyStrip p))).filter
          (fun p => pyStripS p ≠ pyStripS oldTxid))
    else currentTxid
  (if remainingAmount ≠ "" then remainingAmount ++ "+" ++ avStr else avStr,
   if remainingTxid ≠ "" then remainingTxid ++ ", " ++ txid else txid)

/-- A string final amount containing + is written as a formula. Float
finals never contain +, so the containment test coincides with the
isinstance(final_amount, str) and '+' in final_amount test of the source. -/
def wrapFormula (s : String) : String :=
  if s.data.contains '+' then "=" ++ s else s

def updateSheetNamed (sheets : Ledger) (name : String) (f : List LRow → List LRow) : Ledger :=
  match sheets with
  | [] => []
  | (n, rows) :: rest =>
    if n = name then (n, f rows) :: rest
    else (n, rows) :: updateSheetNamed rest name f

/-- The (final_amount, final_txid) pair of the read-rewrite step. The
amount cell is re-read after the edit-mode delete scan (the source fetches
the cell formula fresh), while the reference-id cell is read from the
all_values snapshot taken before that scan. -/
def savedFin (sheets1 : Ledger) (origRows : List LRow) (reason : String) (ri mi : Nat)
    (amount txid : String) (isEdit : Bool) (lastSubmission : Option (String × String)) :
    String × String :=
  let rows1 := (lookupSheet sheets1 reason).getD []
  let currentAmount := dropLeadEq (pyStripS (cellAt rows1 ri mi).1)
  let currentTxid := pyStripS (cellAt origRows ri mi).2
  let av := amountValueStr amount
  if isEdit then
    match lastSubmission with
    | some (oldA, oldT) => editRewrite currentAmount currentTxid oldA oldT av txid
    | none => (av, txid)
  else
    (if currentAmount ≠ "" then currentAmount ++ "+" ++ av else av,
     if currentTxid ≠ "" then currentTxid ++ ", " ++ txid else txid)

/-- The final write: both cells of the month pair are updated. -/
def saveWrite (sheets1 : Ledger) (origRows : List LRow) (reason : String) (ri mi : Nat)
    (amount txid : String) (isEdit : Bool) (lastSubmission : Option (String × String)) :
    Ledger × Option SaveErr :=
  let fin := savedFin sheets1 origRows reason ri mi amount txid isEdit lastSubmission
  (updateSheetNamed sheets1 reason (fun rows =>
    modNth (fun r => ⟨r.house, modNth (fun _ => (wrapFormula fin.1, fin.2)) mi r.cells⟩)
      ri rows), none)

/-- The ledger reconciliation step of process_buffered_messages, from sheet
selection to the cell writes; lastSubmission holds the stored previous
(amount, transaction id) of this user when present. Every early return
leaves the ledger untouched. -/
def process_buffered_messages_save (sheets : Ledger)
    (reason house month amount txid : String)
    (isEdit : Bool) (lastSubmission : Option (String × String)) :
    Ledger × Option SaveErr :=
  match lookupSheet sheets reason with
  | none => (sheets, some .noTargetSheet)
  | some rows =>
    match findRowIdx rows house with
    | none => (sheets, some .houseNotFound)
    | some ri =>
      match monthIdx month with
      | none => (sheets, some .monthNotFound)
      | some mi =>
        let sheets1 :=
          if isEdit && pyStripS txid ≠ "" then
            match findClearLoc sheets house txid with
            | some (si, rj, mj) => clearCellPair sheets si rj mj
            | none => sheets
          else sheets
        if !isEdit && pyStripS txid ≠ "" then
          match findDupLoc sheets1 txid with
          | some (sn, dr) => (sheets, some (.duplicateTxn sn dr))
          | none => saveWrite sheets1 rows reason ri mi amount txid isEdit lastSubmission
        else saveWrite sheets1 rows reason ri mi amount txid isEdit lastSubmission

def sheetShape (rows : List LRow) : List Nat := rows.map (fun r => r.cells.length)

/-- The edit-mode delete scan as applied when isEdit is true. -/
def editClear (sheets : Ledger) (house txid : String) : Ledger :=
  if pyStripS txid ≠ "" then
    match findClearLoc sheets house txid with
    | some (si, rj, mj) => clearCellPair sheets si rj mj
    | none => sheets
  else sheets

/-- Concrete ledgers used to instantiate the ledger theorems. -/
def C10W : Ledger := [("water", [⟨"101", [("=100.0+200.0", "FT1, FT2")]⟩])]

def C2W : Ledger := [("water", [⟨"5", [("100", "ABC123456789")]⟩])]

def C1ce : Ledger := [("water", [⟨"101", [("500+500", "FT111, FT222")]⟩])]

def C1W : Ledger := [("electric", [⟨"202", [("=300+500", "FTAAA, FTBBB")]⟩])]

/-- Character sets of the re-wrapped text ETB <digits>.<digits>, used to
evaluate the extractor symbolically: the full alphabet, the alphabet of
every proper suffix, and the alphabet after lower-casing. -/
def etbAllowed (c : Char) : Bool :=
  c = 'E' || c = 'T' || c = 'B' || c = ' ' || c = '.' || c.isDigit

def etbTail (c : Char) : Bool :=
  c = 'T' || c = 'B' || c = ' ' || c = '.' || c.isDigit

def etbLow (c : Char) : Bool :=
  c = 'e' || c = 't' || c = 'b' || c = ' ' || c = '.' || c.isDigit

/-! ## General helper lemmas -/

theorem char_eq_iff_toNat {c d : Char} : c = d ↔ c.toNat = d.toNat := by
  constructor
  · exact fun h => congrArg _ h
  · intro h
    exact Char.ext (UInt32.ext h)

theorem toNat_ofNat_valid {n : Nat} (h : n < 55296) : (Char.ofNat n).toNat = n := by
  unfold Char.ofNat
  rw [dif_pos (Or.inl h)]
  rfl

theorem toLower_eq_self {c : Char} (h : c.toNat < 65) : c.toLower = c := by
  unfold Char.toLower
  rw [if_neg]
  rintro ⟨h1, _⟩
  exact absurd h1 (by omega)

theorem digit_toNat_le {c : Char} (h : c.isDigit = true) :
    48 ≤ c.toNat ∧ c.toNat ≤ 57 := by
  simp only [Char.isDigit, Bool.and_eq_true, decide_eq_true_eq] at h
  obtain ⟨h1, h2⟩ := h
  have h1' : (48 : UInt32).toNat ≤ c.val.toNat := h1
  have h2' : c.val.toNat ≤ (57 : UInt32).toNat := h2
  exact ⟨h1', h2'⟩

theorem digitDot_toNat_lt {c : Char} (h : isDigitDot c = true) : c.toNat < 65 := by
  simp only [isDigitDot, Bool.or_eq_true] at h
  rcases h with h | h
  · have := digit_toNat_le h
    omega
  · simp only [decide_eq_true_eq] at h
    subst h
    decide

theorem toLower_digitDot {c : Char} (h : isDigitDot c = true) : c.toLower = c :=
  toLower_eq_self (digitDot_toNat_lt h)

theorem no_letter_digitDot {x : Char} (hx : 65 ≤ x.toNat) :
    ∀ c : Char, isDigitDot c = true → x ≠ c.toLower := by
  intro c hc
  rw [toLower_digitDot hc]
  intro he
  rw [char_eq_iff_toNat] at he
  have := digitDot_toNat_lt hc
  omega

theorem isWs_of_toNat_large {c : Char} (h1 : 65 ≤ c.toNat) (h2 : c.toNat ≤ 122) :
    isWs c = false := by
  simp only [isWs, Bool.or_eq_false_iff, decide_eq_false_iff_not]
  refine ⟨⟨⟨⟨⟨?_, ?_⟩, ?_⟩, ?_⟩, ?_⟩, ?_⟩ <;> intro hh <;>
    rw [char_eq_iff_toNat] at hh <;> revert hh <;> simp <;> omega

theorem isWs_toLower (c : Char) : isWs c.toLower = isWs c := by
  show isWs (if c.toNat ≥ 65 ∧ c.toNat ≤ 90 then Char.ofNat (c.toNat + 32) else c) = isWs c
  by_cases hr : c.toNat ≥ 65 ∧ c.toNat ≤ 90
  · rw [if_pos hr]
    obtain ⟨h1, h2⟩ := hr
    have hv : (Char.ofNat (c.toNat + 32)).toNat = c.toNat + 32 :=
      toNat_ofNat_valid (by omega)
    rw [isWs_of_toNat_large (c := Char.ofNat (c.toNat + 32)) (by omega) (by omega)]
    rw [isWs_of_toNat_large (by omega) (by omega)]
  · rw [if_neg hr]

/-- A case-insensitive literal containing a character that is not the
lower-casing of any character of the text alphabet never matches. -/
theorem matchLitCI_none_forb {x : Char} {S : Char → Bool}
    (hx : ∀ c, S c = true → x ≠ c.toLower) :
    ∀ (p l : List Char), x ∈ p → (∀ c ∈ l, S c = true) → matchLitCI p l = none := by
  intro p
  induction p with
  | nil => intro l hxp _; cases hxp
  | cons q ps ih =>
    intro l hxp hl
    cases l with
    | nil => rfl
    | cons c t =>
      simp only [matchLitCI]
      by_cases hq : q = c.toLower
      · rw [if_pos hq]
        rcases List.mem_cons.mp hxp with hxq | hxps
        · exact absurd (hxq.trans hq) (hx c (hl c (List.mem_cons_self c t)))
        · exact ih t hxps (fun c' hc' => hl c' (List.mem_cons_of_mem c hc'))
      · rw [if_neg hq]

theorem tryAlts_none {ps : List String} {k : List Char → Option (List Char × List Char)}
    {l : List Char} (h : ∀ p ∈ ps, litCI p l = none) : tryAlts ps k l = none := by
  induction ps with
  | nil => rfl
  | cons p rest ih =>
    simp only [tryAlts]
    rw [h p (List.mem_cons_self p rest)]
    simpa using ih (fun p' hp' => h p' (List.mem_cons_of_mem p hp'))

theorem searchIdx_none_of_all {tryAt : List Char → Option (List Char × List Char)}
    {P : Char → Bool} (htry : ∀ l, (∀ c ∈ l, P c = true) → tryAt l = none)
    (hnil : tryAt [] = none) :
    ∀ (i : Nat) (l : List Char), (∀ c ∈ l, P c = true) → searchIdx tryAt i l = none := by
  intro i l
  induction l generalizing i with
  | nil => intro _; simp [searchIdx, hnil]
  | cons c t ih =>
    intro hl
    simp only [searchIdx]
    rw [htry (c :: t) hl]
    exact ih (i + 1) (fun c' hc' => hl c' (List.mem_cons_of_mem c hc'))

theorem dropWhile_subset {p : Char → Bool} :
    ∀ {l : List Char} {a : Char}, a ∈ l.dropWhile p → a ∈ l := by
  intro l
  induction l with
  | nil => intro a h; exact h
  | cons c t ih =>
    intro a h
    simp only [List.dropWhile_cons] at h
    split at h
    · exact List.mem_cons_of_mem c (ih h)
    · exact h

theorem takeWhile_subset {p : Char → Bool} :
    ∀ {l : List Char} {a : Char}, a ∈ l.takeWhile p → a ∈ l := by
  intro l
  induction l with
  | nil => intro a h; exact h
  | cons c t ih =>
    intro a h
    simp only [List.takeWhile_cons] at h
    split at h
    · rcases List.mem_cons.mp h with h1 | h1
      · exact h1 ▸ List.mem_cons_self c t
      · exact List.mem_cons_of_mem c (ih h1)
    · cases h

theorem dropWhile_eq_nil_of_all {p : Char → Bool} {l : List Char}
    (h : ∀ c ∈ l, p c = true) : l.dropWhile p = [] := by
  induction l with
  | nil => rfl
  | cons c t ih =>
    simp only [List.dropWhile_cons]
    rw [h c (List.mem_cons_self c t)]
    exact ih (fun c' hc' => h c' (List.mem_cons_of_mem c hc'))

theorem takeWhile_append_all {p : Char → Bool} {xs ys : List Char}
    (h : ∀ c ∈ xs, p c = true) :
    (xs ++ ys).takeWhile p = xs ++ ys.takeWhile p := by
  induction xs with
  | nil => simp
  | cons c t ih =>
    simp only [List.cons_append, List.takeWhile_cons]
    rw [h c (List.mem_cons_self c t)]
    simp [ih (fun c' hc' => h c' (List.mem_cons_of_mem c hc'))]

theorem dropWhile_append_all {p : Char → Bool} {xs ys : List Char}
    (h : ∀ c ∈ xs, p c = true) :
    (xs ++ ys).dropWhile p = ys.dropWhile p := by
  induction xs with
  | nil => simp
  | cons c t ih =>
    simp only [List.cons_append, List.dropWhile_cons]
    rw [h c (List.mem_cons_self c t)]
    exact ih (fun c' hc' => h c' (List.mem_cons_of_mem c hc'))

/-! ## Claim theorems -/

/-- C3: on the OCR text with the settled-amount label and its currency
value split across adjacent lines followed by a VAT-inclusive total, the
amount extractor returns the settled, pre-VAT amount string 1250.00 and
not the total. -/
theorem C3_settled_amount_scenario :
    extract_amount_from_receipt "Settled Amount\nETB 1,250.00\nTotal with VAT ETB 1,437.50" =
      "1250.00" := by
  decide

/-- C5: validate_beneficiary accepts every string whose normalized,
connector-free token list contains at least one authorized token,
regardless of other words; the empty string is always rejected. -/
theorem C5_validate_beneficiary_partial_match :
    (validate_beneficiary "").1 = false ∧
    ∀ s : String,
      ((cleanedTokens s).any fun t => authorized_tokens.contains t) = true →
      (validate_beneficiary s).1 = true := by
  refine ⟨rfl, ?_⟩
  intro s h
  unfold validate_beneficiary
  split
  · next hs =>
    rw [hs] at h
    exact absurd h (by decide)
  · simp [h]

/-- C5 witness: a string holding one authorized token next to an
unauthorized word validates. -/
theorem C5_validate_beneficiary_partial_match_witness :
    ((cleanedTokens "SEYOUM RANDOMWORD").any fun t => authorized_tokens.contains t) = true ∧
    (validate_beneficiary "SEYOUM RANDOMWORD").1 = true :=
  ⟨by decide, C5_validate_beneficiary_partial_match.2 "SEYOUM RANDOMWORD" (by decide)⟩

/-- C6: every spelling in the three fixed month tables converts to its
canonical Ethiopian month (Ethiopian English names map to themselves,
Amharic variants and Gregorian names map through the static tables, with
january giving Tir and october giving Meskerem), and a text containing no
table entry converts to the empty string. -/
theorem C6_convert_month_tables :
    (ETHIOPIAN_MONTHS_LIST.all fun m => convert_to_ethiopian_month m == m) = true ∧
    (AMHARIC_TO_ETHIOPIAN.all fun p => convert_to_ethiopian_month p.1 == p.2) = true ∧
    (GREGORIAN_TO_ETHIOPIAN.all fun p => convert_to_ethiopian_month p.1 == p.2) = true ∧
    ∀ t : String, monthEntryAbsent t = true → convert_to_ethiopian_month t = "" := by
  refine ⟨by decide, by decide, by decide, ?_⟩
  intro t h
  simp only [monthEntryAbsent, Bool.and_eq_true, List.all_eq_true] at h
  obtain ⟨⟨h1, h2⟩, h3⟩ := h
  unfold convert_to_ethiopian_month
  have e1 : ETHIOPIAN_MONTHS_LIST.find?
      (fun m => containsL (lowerL m.data) (lowerL t.data) || containsL m.data t.data) = none := by
    apply List.find?_eq_none.mpr
    intro x hx
    have hb := h1 x hx
    simp only [Bool.not_eq_true'] at hb
    simp [hb]
  have e2 : AMHARIC_TO_ETHIOPIAN.find? (fun p => containsL p.1.data t.data) = none := by
    apply List.find?_eq_none.mpr
    intro x hx
    have hb := h2 x hx
    simp only [Bool.not_eq_true'] at hb
    simp [hb]
  have e3 : GREGORIAN_TO_ETHIOPIAN.find? (fun p => containsL p.1.data (lowerL t.data)) = none := by
    apply List.find?_eq_none.mpr
    intro x hx
    have hb := h3 x hx
    simp only [Bool.not_eq_true'] at hb
    simp [hb]
  simp only [e1, e2, e3]

/-- C6 witness: a text containing no table entry converts to empty. -/
theorem C6_convert_month_tables_witness :
    monthEntryAbsent "hello world" = true ∧ convert_to_ethiopian_month "hello world" = "" :=
  ⟨by decide, C6_convert_month_tables.2.2.2 "hello world" (by decide)⟩

/-- C8: when house extraction falls through to the generic number scan, a
caption-like input (house keywords present or shorter than 100 characters)
yields the first surviving 3-4 digit candidate and a long keyword-free
input yields the last; the caption with ቁ, 1108 and the year 2018 yields
1108. -/
theorem C8_house_scan_first_vs_last :
    (∀ caption : String,
      searchIdx tryH1 0 caption.data = none →
      searchIdx tryH2 0 caption.data = none →
      searchIdx tryH3 0 caption.data = none →
      houseScanNums caption.data ≠ [] →
      ((hasHouseKeywords caption.data || caption.data.length < 100) = true →
        extract_house_from_caption caption = String.mk ((houseScanNums caption.data).headD [])) ∧
      ((hasHouseKeywords caption.data || caption.data.length < 100) = false →
        extract_house_from_caption caption = String.mk ((houseScanNums caption.data).getLastD []))) ∧
    extract_house_from_caption "ቁ 1108 የታህሳስ 2018" = "1108" := by
  refine ⟨?_, by decide⟩
  intro cap h1 h2 h3 hne
  unfold extract_house_from_caption
  by_cases hc : cap = ""
  · subst hc
    exact absurd rfl hne
  · simp only [if_neg hc, h1, h2, h3]
    cases hv : houseScanNums cap.data with
    | nil => exact absurd hv hne
    | cons v vs =>
      have hlen : cap.length = cap.data.length := rfl
      constructor
      · intro hcond
        simp [hcond]
        intro hkw hge
        exfalso
        rw [hkw] at hcond
        simp at hcond
        omega
      · intro hcond
        simp [hcond]
        intro hor
        exfalso
        simp only [Bool.or_eq_false_iff, decide_eq_false_iff_not] at hcond
        rcases hor with hkw | hlt
        · rw [hkw] at hcond
          exact absurd hcond.1 (by decide)
        · exact absurd (by omega : cap.data.length < 100) hcond.2

/-- C8 witness: the concrete caption discharges the fall-through and
caption-likeness hypotheses of the first-candidate branch. -/
theorem C8_house_scan_first_vs_last_witness :
    searchIdx tryH1 0 ("ቁ 1108 የታህሳስ 2018" : String).data = none ∧
    houseScanNums ("ቁ 1108 የታህሳስ 2018" : String).data ≠ [] ∧
    extract_house_from_caption "ቁ 1108 የታህሳስ 2018" =
      String.mk ((houseScanNums ("ቁ 1108 የታህሳስ 2018" : String).data).headD []) :=
  ⟨by decide, by decide,
    ((C8_house_scan_first_vs_last.1 "ቁ 1108 የታህሳስ 2018" (by decide) (by decide) (by decide)
      (by decide)).1 (by decide))⟩

/-! ## C4 helper lemmas: bare numeric user text admits no explicit label -/

theorem pyStrip_lowerL (l : List Char) : pyStrip (lowerL l) = lowerL (pyStrip l) := by
  have hp : (fun c => isWs (Char.toLower c)) = isWs := funext isWs_toLower
  unfold pyStrip lowerL
  rw [List.dropWhile_map, List.reverse_map, List.dropWhile_map, List.reverse_map]
  simp only [Function.comp_def, hp]

theorem userLowerOf_of_bare {u : String} (hb : isBareNumber (pyStrip u.data) = true) :
    userLowerOf u = pyStrip u.data := by
  have hall : ∀ c ∈ pyStrip u.data, isDigitDot c = true := by
    simp only [isBareNumber, Bool.and_eq_true, List.all_eq_true] at hb
    exact hb.2
  unfold userLowerOf
  rw [pyStrip_lowerL]
  unfold lowerL
  rw [List.map_congr_left (fun c hc => toLower_digitDot (hall c hc))]
  exact List.map_id' _

theorem tryEA1_none {l : List Char} (h : ∀ c ∈ l, isDigitDot c = true) :
    tryEA1 l = none := by
  apply tryAlts_none
  intro p hp
  fin_cases hp
  · exact matchLitCI_none_forb (x := 'a') (no_letter_digitDot (by decide)) _ _ (by decide) h
  · exact matchLitCI_none_forb (x := 'b') (no_letter_digitDot (by decide)) _ _ (by decide) h
  · exact matchLitCI_none_forb (x := 'ብ') (no_letter_digitDot (by decide)) _ _ (by decide) h

theorem tryEA2_none {l : List Char} (h : ∀ c ∈ l, isDigitDot c = true) :
    tryEA2 l = none := by
  simp only [tryEA2]
  rw [dropWhile_eq_nil_of_all h]
  split
  · rfl
  · rfl

theorem tryEM_none {l : List Char} (h : ∀ c ∈ l, isDigitDot c = true) :
    tryEM l = none := by
  apply tryAlts_none
  intro p hp
  fin_cases hp
  · exact matchLitCI_none_forb (x := 'm') (no_letter_digitDot (by decide)) _ _ (by decide) h
  · exact matchLitCI_none_forb (x := 'ወ') (no_letter_digitDot (by decide)) _ _ (by decide) h

theorem explicitAmountOf_of_bare {u : String} (hb : isBareNumber (pyStrip u.data) = true) :
    explicitAmountOf u = none := by
  have hall : ∀ c ∈ userLowerOf u, isDigitDot c = true := by
    rw [userLowerOf_of_bare hb]
    simp only [isBareNumber, Bool.and_eq_true, List.all_eq_true] at hb
    exact hb.2
  unfold explicitAmountOf searchGroup
  rw [searchIdx_none_of_all (fun l hl => tryEA1_none hl) rfl 0 _ hall]
  rw [searchIdx_none_of_all (fun l hl => tryEA2_none hl) rfl 0 _ hall]

theorem explicitMonthOf_of_bare {u : String} (hb : isBareNumber (pyStrip u.data) = true) :
    explicitMonthOf u = none := by
  have hall : ∀ c ∈ userLowerOf u, isDigitDot c = true := by
    rw [userLowerOf_of_bare hb]
    simp only [isBareNumber, Bool.and_eq_true, List.all_eq_true] at hb
    exact hb.2
  unfold explicitMonthOf searchGroup
  rw [searchIdx_none_of_all (fun l hl => tryEM_none hl) rfl 0 _ hall]

/-- C4 counterexample: in edit mode with a stored previous house of 555,
the user text amount: 700 house: 901 supplies an explicit amount label,
yet the resulting house number is the explicit 901, not the carried-over
555 — the claim as stated fails when an explicit house label is present. -/
theorem C4_counterexample_explicit_house_wins :
    (extract_payment_data_buffered_core "" "" "amount: 700 house: 901" true
        (some "555")).house_number = "901" ∧
    explicitAmountOf "amount: 700 house: 901" ≠ none ∧
    ("901" : String) ≠ "555" := by
  refine ⟨by decide, by decide, by decide⟩

/-- C4 amended: in edit mode, when the user text carries no explicit house
label and either is a bare number or supplies an explicit amount or month
label, house extraction from user text, caption and combined text is
suppressed and the house number is carried over unchanged from the stored
previous submission; a bare number is taken as the amount. (The amendment
adds the no-explicit-house-label proviso, which the counterexample shows
is necessary.) -/
theorem C4_edit_mode_bare_number_amended :
    ∀ (combined_text caption user_text origHouse : String),
      explicitHouseOf user_text = none →
      (isBareNumber (pyStrip user_text.data) = true ∨
        explicitAmountOf user_text ≠ none ∨ explicitMonthOf user_text ≠ none) →
      (extract_payment_data_buffered_core combined_text caption user_text true
          (some origHouse)).house_number = origHouse ∧
      (isBareNumber (pyStrip user_text.data) = true →
        (extract_payment_data_buffered_core combined_text caption user_text true
            (some origHouse)).amount = String.mk (pyStrip user_text.data)) := by
  intro ct cap ut oh hH hOr
  have hut : ut ≠ "" := by
    intro h
    subst h
    rcases hOr with hb | hA | hM
    · exact absurd hb (by decide)
    · exact hA (by decide)
    · exact hM (by decide)
  have hd : (decide (ut ≠ "")) = true := by simp [hut]
  have hbig : (isBareNumber (pyStrip ut.data) ||
      (explicitAmountOf ut).isSome || (explicitMonthOf ut).isSome) = true := by
    rcases hOr with hb | hA | hM
    · simp [hb]
    · simp [Option.isSome_iff_ne_none.mpr hA]
    · simp [Option.isSome_iff_ne_none.mpr hM]
  constructor
  · simp only [extract_payment_data_buffered_core, Bool.true_and, hd, if_true, hH]
    rw [if_pos hbig]
    by_cases hoh : oh = "" <;> simp [hoh]
  · intro hb
    simp only [extract_payment_data_buffered_core, Bool.true_and, hd, if_true, hH,
      explicitAmountOf_of_bare hb, hb]

/-! ## Ledger helper lemmas -/

theorem modNth_length {α : Type} (f : α → α) :
    ∀ (i : Nat) (l : List α), (modNth f i l).length = l.length := by
  intro i l
  induction l generalizing i with
  | nil => rw [modNth_nil]
  | cons x t ih =>
    cases i with
    | zero => rfl
    | succ n => simp [modNth, ih]

theorem modNth_get? {α : Type} (f : α → α) :
    ∀ (i : Nat) (l : List α), (modNth f i l).get? i = (l.get? i).map f := by
  intro i l
  induction l generalizing i with
  | nil => rw [modNth_nil]; rfl
  | cons x t ih =>
    cases i with
    | zero => rfl
    | succ n =>
      simp only [modNth, List.get?_cons_succ]
      exact ih n

theorem findRowIdx_lt {rows : List LRow} {house : String} {ri : Nat}
    (h : findRowIdx rows house = some ri) : ri < rows.length :=
  (List.findIdx?_eq_some_iff_findIdx_eq.mp h).1

theorem lookupSheet_update {sheets : Ledger} {name : String} {f : List LRow → List LRow} :
    lookupSheet (updateSheetNamed sheets name f) name = (lookupSheet sheets name).map f := by
  induction sheets with
  | nil => rfl
  | cons x rest ih =>
    obtain ⟨n, rows⟩ := x
    simp only [updateSheetNamed]
    by_cases hn : n = name
    · rw [if_pos hn]
      simp [lookupSheet, List.find?_cons, hn]
    · rw [if_neg hn]
      simp only [lookupSheet, List.find?_cons] at ih ⊢
      rw [show (decide (n = name)) = false by simp [hn]]
      exact ih

theorem sheetShape_modNth {rows : List LRow} {ri : Nat}
    {h : LRow → LRow} (hh : ∀ r, ((h r).cells).length = (r.cells).length) :
    sheetShape (modNth h ri rows) = sheetShape rows := by
  induction rows generalizing ri with
  | nil => rw [modNth_nil]
  | cons r t ih =>
    cases ri with
    | zero => simp [modNth, sheetShape, hh]
    | succ n =>
      simp only [modNth, sheetShape, List.map_cons]
      have := @ih n
      simp only [sheetShape] at this
      rw [this]

theorem lookupSheet_modNth_shape {s : Ledger} {si : Nat}
    {g : String × List LRow → String × List LRow}
    (hg1 : ∀ p, (g p).1 = p.1) (hg2 : ∀ p, sheetShape (g p).2 = sheetShape p.2)
    (name : String) :
    (lookupSheet (modNth g si s) name).map sheetShape =
      (lookupSheet s name).map sheetShape := by
  induction s generalizing si with
  | nil => rw [modNth_nil]
  | cons x rest ih =>
    cases si with
    | zero =>
      simp only [modNth, lookupSheet, List.find?_cons]
      rw [show (decide ((g x).1 = name)) = decide (x.1 = name) by rw [hg1]]
      by_cases hx : x.1 = name
      · simp [hx, hg2]
      · simp only [show (decide (x.1 = name)) = false by simp [hx]]
    | succ n =>
      simp only [modNth, lookupSheet, List.find?_cons]
      by_cases hx : x.1 = name
      · simp [hx]
      · simp only [show (decide (x.1 = name)) = false by simp [hx]]
        have := @ih n
        simpa [lookupSheet] using this

theorem lookupSheet_clear_shape (s : Ledger) (si ri mi : Nat) (name : String) :
    (lookupSheet (clearCellPair s si ri mi) name).map sheetShape =
      (lookupSheet s name).map sheetShape := by
  unfold clearCellPair
  apply lookupSheet_modNth_shape
  · intro p
    rfl
  · intro p
    exact sheetShape_modNth (fun r => by simp [modNth_length])

theorem cellAt_update {rows : List LRow} {ri mi : Nat} (v : String × String)
    (hri : ri < rows.length)
    (hmi : mi < (((rows.get? ri).getD ⟨"", []⟩).cells).length) :
    cellAt (modNth (fun r => ⟨r.house, modNth (fun _ => v) mi r.cells⟩) ri rows) ri mi = v := by
  unfold cellAt
  rw [modNth_get?]
  cases hr : rows.get? ri with
  | none =>
    rw [List.get?_eq_none] at hr
    omega
  | some r =>
    simp only [Option.map_some']
    rw [modNth_get?]
    cases hc : r.cells.get? mi with
    | none =>
      rw [List.get?_eq_none] at hc
      rw [hr] at hmi
      simp only [Option.getD_some] at hmi
      omega
    | some c => simp

theorem no_plus_contains {l : List Char} (h : '+' ∉ l) :
    l.contains '+' = false := by
  simpa using h

theorem natToCharsAux_digits : ∀ (fuel n : Nat), ∀ c ∈ natToCharsAux fuel n, c.isDigit = true := by
  intro fuel
  induction fuel with
  | zero => intro n c hc; cases hc
  | succ f ih =>
    intro n c hc
    simp only [natToCharsAux] at hc
    split at hc
    · next h =>
      rw [List.mem_singleton] at hc
      subst hc
      have hn : n < 10 := h
      interval_cases n <;> decide
    · rcases List.mem_append.mp hc with h1 | h2
      · exact ih _ c h1
      · rw [List.mem_singleton] at h2
        subst h2
        have hn : n % 10 < 10 := Nat.mod_lt _ (by omega)
        set d := n % 10 with hd
        interval_cases d <;> decide

theorem natToChars_digits {n : Nat} : ∀ c ∈ natToChars n, c.isDigit = true :=
  natToCharsAux_digits (n + 1) n

theorem plus_ne_digitChar {d : Nat} (h : d < 10) : ('+' : Char) ≠ digitChar d := by
  interval_cases d <;> decide

theorem plus_notin_natToChars {n : Nat} : ('+' : Char) ∉ natToChars n := by
  intro hm
  exact absurd (natToChars_digits '+' hm) (by decide)

theorem pyFloatStr_no_plus (c : Nat) : (pyFloatStrS c).contains '+' = false := by
  apply no_plus_contains
  intro hx
  unfold pyFloatStrS at hx
  split at hx
  · rcases List.mem_append.mp hx with h1 | h2
    · exact plus_notin_natToChars h1
    · exact absurd h2 (by decide)
  · split at hx
    · rcases List.mem_append.mp hx with h1 | h2
      · exact plus_notin_natToChars h1
      · rcases List.mem_cons.mp h2 with h3 | h3
        · exact absurd h3 (by decide)
        · rcases List.mem_cons.mp h3 with h4 | h4
          · exact plus_ne_digitChar (by omega) h4
          · cases h4
    · rcases List.mem_append.mp hx with h1 | h2
      · exact plus_notin_natToChars h1
      · rcases List.mem_cons.mp h2 with h3 | h3
        · exact absurd h3 (by decide)
        · rcases List.mem_cons.mp h3 with h4 | h4
          · exact plus_ne_digitChar (by omega) h4
          · rcases List.mem_cons.mp h4 with h5 | h5
            · exact plus_ne_digitChar (by omega) h5
            · cases h5

theorem string_ne_empty_of_data {s : String} (h : s.data ≠ []) : s ≠ "" := by
  intro he
  subst he
  exact h rfl

theorem append_contains_plus (a b : String) :
    (a ++ "+" ++ b).data.contains '+' = true := by
  simp [String.data_append]

/-! ## Ledger bridge lemmas -/

theorem save_edit_unfold {sheets : Ledger} {reason house month amount txid : String}
    {rows : List LRow} {ri mi : Nat} {last : Option (String × String)}
    (hs : lookupSheet sheets reason = some rows)
    (hr : findRowIdx rows house = some ri)
    (hm : monthIdx month = some mi) :
    process_buffered_messages_save sheets reason house month amount txid true last =
      saveWrite (editClear sheets house txid) rows reason ri mi amount txid true last := by
  unfold process_buffered_messages_save
  simp only [hs, hr, hm]
  by_cases ht : pyStripS txid ≠ ""
  · simp [editClear, ht]
  · simp [editClear, ht]

theorem save_nonedit_unfold {sheets : Ledger} {reason house month amount txid : String}
    {rows : List LRow} {ri mi : Nat} {last : Option (String × String)}
    (hs : lookupSheet sheets reason = some rows)
    (hr : findRowIdx rows house = some ri)
    (hm : monthIdx month = some mi)
    (hnodup : pyStripS txid = "" ∨ findDupLoc sheets txid = none) :
    process_buffered_messages_save sheets reason house month amount txid false last =
      saveWrite sheets rows reason ri mi amount txid false last := by
  unfold process_buffered_messages_save
  simp only [hs, hr, hm]
  rcases hnodup with ht | hd
  · simp [ht]
  · by_cases ht : pyStripS txid ≠ ""
    · simp [ht, hd]
    · simp [ht]

theorem save_nonedit_dup {sheets : Ledger} {reason house month amount txid : String}
    {rows : List LRow} {ri mi : Nat} {last : Option (String × String)}
    {sn : String} {dr : Nat}
    (hs : lookupSheet sheets reason = some rows)
    (hr : findRowIdx rows house = some ri)
    (hm : monthIdx month = some mi)
    (ht : pyStripS txid ≠ "")
    (hdup : findDupLoc sheets txid = some (sn, dr)) :
    process_buffered_messages_save sheets reason house month amount txid false last =
      (sheets, some (SaveErr.duplicateTxn sn dr)) := by
  unfold process_buffered_messages_save
  simp only [hs, hr, hm]
  simp [ht, hdup]

theorem saveWrite_cell {sheets1 : Ledger} (origRows : List LRow) {rows1 : List LRow}
    {reason : String} {ri mi : Nat} (amount txid : String) (isEdit : Bool)
    (last : Option (String × String))
    (hs1 : lookupSheet sheets1 reason = some rows1)
    (hri : ri < rows1.length)
    (hmi : mi < (((rows1.get? ri).getD ⟨"", []⟩).cells).length) :
    (saveWrite sheets1 origRows reason ri mi amount txid isEdit last).2 = none ∧
    cellAt (((lookupSheet
        (saveWrite sheets1 origRows reason ri mi amount txid isEdit last).1 reason)).getD [])
      ri mi =
      (wrapFormula (savedFin sheets1 origRows reason ri mi amount txid isEdit last).1,
       (savedFin sheets1 origRows reason ri mi amount txid isEdit last).2) := by
  constructor
  · rfl
  · show cellAt ((lookupSheet (updateSheetNamed sheets1 reason _) reason).getD []) ri mi = _
    rw [lookupSheet_update, hs1]
    exact cellAt_update _ hri hmi

theorem editClear_shape (sheets : Ledger) (house txid reason : String) :
    (lookupSheet (editClear sheets house txid) reason).map sheetShape =
      (lookupSheet sheets reason).map sheetShape := by
  unfold editClear
  split
  · split
    · next si rj mj _ => exact lookupSheet_clear_shape sheets si rj mj reason
    · rfl
  · rfl

theorem shape_transfer {rows rows1 : List LRow} {ri mi : Nat}
    (h : sheetShape rows1 = sheetShape rows)
    (hri : ri < rows.length)
    (hmi : mi < (((rows.get? ri).getD ⟨"", []⟩).cells).length) :
    ri < rows1.length ∧ mi < (((rows1.get? ri).getD ⟨"", []⟩).cells).length := by
  have hlen : rows1.length = rows.length := by
    have := congrArg List.length h
    simpa [sheetShape] using this
  refine ⟨by omega, ?_⟩
  have hg : (rows1.map (fun r => r.cells.length)).get? ri =
      (rows.map (fun r => r.cells.length)).get? ri := congrArg (fun l => l.get? ri) h
  rw [List.get?_map, List.get?_map] at hg
  cases h1 : rows1.get? ri with
  | none =>
    rw [List.get?_eq_none] at h1
    omega
  | some r1 =>
    cases h0 : rows.get? ri with
    | none =>
      rw [List.get?_eq_none] at h0
      omega
    | some r0 =>
      rw [h0] at hmi
      rw [h0, h1] at hg
      simp only [Option.map_some', Option.some.injEq] at hg
      simpa [hg] using hmi

/-! ## String join lemmas for the edit rewrite -/

theorem string_eq_empty_iff {s : String} : s = "" ↔ s.data = [] := by
  constructor
  · intro h; rw [h]
  · intro h
    cases s with
    | mk d => cases h; rfl

theorem append_ne_empty_left {a b : String} (ha : a ≠ "") : a ++ b ≠ "" := by
  intro h
  rw [string_eq_empty_iff, String.data_append, List.append_eq_nil] at h
  exact ha (string_eq_empty_iff.mpr h.1)

theorem joinSep_ne_empty {sep : String} {k : String} {ks : List String} (hk : k ≠ "") :
    joinSep sep (k :: ks) ≠ "" := by
  cases ks with
  | nil => exact hk
  | cons y r =>
    show k ++ sep ++ joinSep sep (y :: r) ≠ ""
    exact append_ne_empty_left (append_ne_empty_left hk)

theorem joinSep_append_one (sep : String) :
    ∀ (l : List String) (x : String),
      joinSep sep (l ++ [x]) =
        (match l with
         | [] => x
         | _ :: _ => joinSep sep l ++ sep ++ x) := by
  intro l
  induction l with
  | nil => intro x; rfl
  | cons y t ih =>
    intro x
    cases t with
    | nil => rfl
    | cons z r =>
      show y ++ sep ++ joinSep sep ((z :: r) ++ [x]) = (y ++ sep ++ joinSep sep (z :: r)) ++ sep ++ x
      rw [ih x]
      simp [String.append_assoc]

/-- The edit rewrite in closed form: every stripped term equal to the old
amount (token equal to the old transaction id) is removed, every other
term is kept in order, and the new value is appended; valid whenever the
old values and the current cells are non-empty and the cells split into
non-empty stripped parts. -/
theorem editRewrite_spec (ca ct oldA oldT av tx : String)
    (hoa : oldA ≠ "") (hca : ca ≠ "") (hot : oldT ≠ "") (hct : ct ≠ "")
    (hAparts : ∀ p ∈ (splitOnC '+' ca.data).map (fun p => String.mk (pyStrip p)), p ≠ "")
    (hTparts : ∀ p ∈ (splitOnC ',' ct.data).map (fun p => String.mk (pyStrip p)), p ≠ "") :
    editRewrite ca ct oldA oldT av tx =
      (joinSep "+"
        ((((splitOnC '+' ca.data).map (fun p => String.mk (pyStrip p))).filter
          (fun p => p ≠ pyStripS oldA)) ++ [av]),
       joinSep ", "
        ((((splitOnC ',' ct.data).map (fun p => String.mk (pyStrip p))).filter
          (fun p => pyStripS p ≠ pyStripS oldT)) ++ [tx])) := by
  unfold editRewrite
  rw [if_pos (by simp [hoa, hca]), if_pos (by simp [hot, hct])]
  dsimp only
  rw [Prod.mk.injEq]
  constructor
  · cases hk : (((splitOnC '+' ca.data).map (fun p => String.mk (pyStrip p))).filter
        (fun p => p ≠ pyStripS oldA)) with
    | nil => simp [hk, joinSep]
    | cons k ks =>
      have hkne : k ≠ "" :=
        hAparts k (List.mem_of_mem_filter (hk ▸ List.mem_cons_self k ks))
      rw [joinSep_append_one]
      dsimp only
      rw [if_pos (joinSep_ne_empty hkne)]
  · cases hk : (((splitOnC ',' ct.data).map (fun p => String.mk (pyStrip p))).filter
        (fun p => pyStripS p ≠ pyStripS oldT)) with
    | nil => simp [hk, joinSep]
    | cons k ks =>
      have hkne : k ≠ "" :=
        hTparts k (List.mem_of_mem_filter (hk ▸ List.mem_cons_self k ks))
      rw [joinSep_append_one]
      dsimp only
      rw [if_pos (joinSep_ne_empty hkne)]

/-- C10: when finalization runs in edit mode with no stored previous
submission, the month cell pair is overwritten with exactly the new
amount (as a float string) and the new transaction id, regardless of the
cells' current contents; a non-edit submission with non-empty current
cells instead appends the new amount to the existing value with a plus
separator (the cell becomes a formula) and the new transaction id with a
comma separator. -/
theorem C10_edit_overwrite_vs_append
    (sheets : Ledger) (reason house month amount txid : String)
    (rows : List LRow) (ri mi c : Nat)
    (hs : lookupSheet sheets reason = some rows)
    (hr : findRowIdx rows house = some ri)
    (hm : monthIdx month = some mi)
    (hmi : mi < (((rows.get? ri).getD ⟨"", []⟩).cells).length)
    (hamt : pyFloatCents amount.data = some c) (hane : amount ≠ "") :
    ((process_buffered_messages_save sheets reason house month amount txid true none).2 = none ∧
      cellAt ((lookupSheet
          (process_buffered_messages_save sheets reason house month amount txid true none).1
        reason).getD []) ri mi = (pyFloatStr c, txid)) ∧
    ((pyStripS txid = "" ∨ findDupLoc sheets txid = none) →
      dropLeadEq (pyStripS (cellAt rows ri mi).1) ≠ "" →
      pyStripS (cellAt rows ri mi).2 ≠ "" →
      (process_buffered_messages_save sheets reason house month amount txid false none).2 = none ∧
      cellAt ((lookupSheet
          (process_buffered_messages_save sheets reason house month amount txid false none).1
        reason).getD []) ri mi =
        ("=" ++ (dropLeadEq (pyStripS (cellAt rows ri mi).1) ++ "+" ++ pyFloatStr c),
         pyStripS (cellAt rows ri mi).2 ++ ", " ++ txid)) := by
  have hri : ri < rows.length := findRowIdx_lt hr
  constructor
  · have hshape := editClear_shape sheets house txid reason
    rw [hs] at hshape
    cases h1 : lookupSheet (editClear sheets house txid) reason with
    | none => rw [h1] at hshape; simp at hshape
    | some rows1 =>
      rw [h1] at hshape
      simp only [Option.map_some', Option.some.injEq] at hshape
      obtain ⟨hri1, hmi1⟩ := shape_transfer hshape hri hmi
      rw [save_edit_unfold hs hr hm]
      have hcell := saveWrite_cell rows amount txid true none h1 hri1 hmi1
      refine ⟨hcell.1, ?_⟩
      rw [hcell.2]
      have hav : savedFin (editClear sheets house txid) rows reason ri mi amount txid true none
          = (pyFloatStr c, txid) := by
        unfold savedFin
        simp [amountValueStr, hane, hamt]
      rw [hav]
      have hfalse : (pyFloatStr c).data.contains '+' = false := pyFloatStr_no_plus c
      unfold wrapFormula
      simp only [hfalse, Bool.false_eq_true, if_false]
  · intro hnodup hca hct
    rw [save_nonedit_unfold hs hr hm hnodup]
    have hcell := saveWrite_cell rows amount txid false none hs hri hmi
    refine ⟨hcell.1, ?_⟩
    rw [hcell.2]
    have hfin : savedFin sheets rows reason ri mi amount txid false none =
        (dropLeadEq (pyStripS (cellAt rows ri mi).1) ++ "+" ++ pyFloatStr c,
         pyStripS (cellAt rows ri mi).2 ++ ", " ++ txid) := by
      unfold savedFin
      rw [hs]
      simp only [Option.getD_some, Bool.false_eq_true, if_false]
      rw [if_pos hca, if_pos hct]
      simp [amountValueStr, hane, hamt]
    rw [hfin]
    simp only [wrapFormula, append_contains_plus, if_pos]

/-- C10 witness at a one-sheet ledger whose target cell already holds an
accumulated formula and two reference ids. -/
theorem C10_edit_overwrite_vs_append_witness :
    pyFloatCents ("700" : String).data = some 70000 ∧
    ((process_buffered_messages_save C10W "water" "101" "Meskerem" "700" "FTW10" true none).2 =
        none ∧
      cellAt ((lookupSheet
          (process_buffered_messages_save C10W "water" "101" "Meskerem" "700" "FTW10" true none).1
        "water").getD []) 0 0 = (pyFloatStr 70000, "FTW10")) ∧
    ((process_buffered_messages_save C10W "water" "101" "Meskerem" "700" "FTW10" false none).2 =
        none ∧
      cellAt ((lookupSheet
          (process_buffered_messages_save C10W "water" "101" "Meskerem" "700" "FTW10" false none).1
        "water").getD []) 0 0 =
        ("=" ++ ("100.0+200.0" ++ "+" ++ pyFloatStr 70000), "FT1, FT2" ++ ", " ++ "FTW10")) := by
  have h := C10_edit_overwrite_vs_append C10W "water" "101" "Meskerem" "700" "FTW10"
    [⟨"101", [("=100.0+200.0", "FT1, FT2")]⟩] 0 0 70000 (by rfl) (by rfl) (by rfl)
    (by decide) (by rfl) (by decide)
  refine ⟨by rfl, h.1, ?_⟩
  exact h.2 (Or.inr (by rfl)) (by decide) (by decide)

/-- C2: with a non-empty transaction id, a non-edit submission whose id is
found by the all-sheet duplicate scan is rejected with a duplicate error
and the ledger is returned unchanged, while an edit-mode submission for
the same data is accepted (no error), the duplicate check being bypassed. -/
theorem C2_duplicate_check_and_edit_bypass
    (sheets : Ledger) (reason house month amount txid : String)
    (rows : List LRow) (ri mi : Nat) (last : Option (String × String))
    (hs : lookupSheet sheets reason = some rows)
    (hr : findRowIdx rows house = some ri)
    (hm : monthIdx month = some mi)
    (ht : pyStripS txid ≠ "") :
    (∀ sn dr, findDupLoc sheets txid = some (sn, dr) →
      process_buffered_messages_save sheets reason house month amount txid false last =
        (sheets, some (SaveErr.duplicateTxn sn dr))) ∧
    (process_buffered_messages_save sheets reason house month amount txid true last).2 = none := by
  constructor
  · intro sn dr hdup
    exact save_nonedit_dup hs hr hm ht hdup
  · rw [save_edit_unfold hs hr hm]
    rfl

/-- C2 witness: the id ABC123456789 already sits in sheet water, so the
non-edit submission is rejected as a duplicate of that sheet and row while
the edit-mode submission goes through. -/
theorem C2_duplicate_check_and_edit_bypass_witness :
    pyStripS "ABC123456789" ≠ "" ∧
    findDupLoc C2W "ABC123456789" = some ("water", 0) ∧
    process_buffered_messages_save C2W "water" "5" "Meskerem" "200" "ABC123456789" false none =
      (C2W, some (SaveErr.duplicateTxn "water" 0)) ∧
    (process_buffered_messages_save C2W "water" "5" "Meskerem" "200" "ABC123456789" true
      none).2 = none := by
  have h := C2_duplicate_check_and_edit_bypass C2W "water" "5" "Meskerem" "200" "ABC123456789"
    [⟨"5", [("100", "ABC123456789")]⟩] 0 0 none (by rfl) (by rfl) (by rfl) (by decide)
  exact ⟨by decide, by rfl, h.1 "water" 0 (by rfl), h.2⟩

/-- C1 counterexample: the shared cell 500+500 holds the user's own 500
and another user's identical 500; edit-mode finalization with stored
previous amount 500 removes BOTH terms (the filter matches every stripped
term equal to the old amount), so the other user's contribution is
destroyed rather than left unchanged, and the written amount cell is just
the new 700.0. -/
theorem C1_counterexample_shared_term_destroyed :
    (process_buffered_messages_save C1ce "water" "101" "Meskerem" "700" "FTNEW123" true
        (some ("500", "FT111"))).2 = none ∧
    cellAt ((lookupSheet (process_buffered_messages_save C1ce "water" "101" "Meskerem" "700"
        "FTNEW123" true (some ("500", "FT111"))).1 "water").getD []) 0 0 =
      ("700.0", "FT222, FTNEW123") ∧
    containsS "500" ("700.0" : String).data = false := by
  refine ⟨by rfl, by rfl, by rfl⟩

/-- C1 amended: edit-mode finalization removes every stripped amount term
equal to the user's old amount and every stripped reference-id token equal
to the user's old transaction id, keeps all other terms and tokens in
order, and appends the new values — so when the other users' terms differ
from the user's own old values they are left unchanged. (The amendment
weakens only-own-terms to all-terms-equal-to-the-old-value: the match is
by literal stripped string, so another user's identical term is removed
too, as the counterexample shows.) -/
theorem C1_edit_subtract_matching_terms_amended
    (sheets : Ledger) (reason house month amount txid oldA oldT : String)
    (rows : List LRow) (ri mi : Nat)
    (hs : lookupSheet sheets reason = some rows)
    (hr : findRowIdx rows house = some ri)
    (hm : monthIdx month = some mi)
    (hmi : mi < (((rows.get? ri).getD ⟨"", []⟩).cells).length)
    (hclr : pyStripS txid = "" ∨ findClearLoc sheets house txid = none)
    (hoa : oldA ≠ "") (hot : oldT ≠ "")
    (hca : dropLeadEq (pyStripS (cellAt rows ri mi).1) ≠ "")
    (hct : pyStripS (cellAt rows ri mi).2 ≠ "")
    (hAparts : ∀ p ∈ (splitOnC '+' (dropLeadEq (pyStripS (cellAt rows ri mi).1)).data).map
        (fun p => String.mk (pyStrip p)), p ≠ "")
    (hTparts : ∀ p ∈ (splitOnC ',' (pyStripS (cellAt rows ri mi).2).data).map
        (fun p => String.mk (pyStrip p)), p ≠ "") :
    (process_buffered_messages_save sheets reason house month amount txid true
        (some (oldA, oldT))).2 = none ∧
    cellAt ((lookupSheet
        (process_buffered_messages_save sheets reason house month amount txid true
          (some (oldA, oldT))).1 reason).getD []) ri mi =
      (wrapFormula (joinSep "+"
          ((((splitOnC '+' (dropLeadEq (pyStripS (cellAt rows ri mi).1)).data).map
            (fun p => String.mk (pyStrip p))).filter (fun p => p ≠ pyStripS oldA)) ++
           [amountValueStr amount])),
       joinSep ", "
          ((((splitOnC ',' (pyStripS (cellAt rows ri mi).2).data).map
            (fun p => String.mk (pyStrip p))).filter
              (fun p => pyStripS p ≠ pyStripS oldT)) ++ [txid])) := by
  have hri : ri < rows.length := findRowIdx_lt hr
  have hec : editClear sheets house txid = sheets := by
    unfold editClear
    rcases hclr with h | h
    · rw [if_neg (by simpa using h)]
    · by_cases ht : pyStripS txid ≠ ""
      · rw [if_pos ht, h]
      · rw [if_neg ht]
  rw [save_edit_unfold hs hr hm, hec]
  have hcell := saveWrite_cell rows amount txid true (some (oldA, oldT)) hs hri hmi
  refine ⟨hcell.1, ?_⟩
  rw [hcell.2]
  have hfin : savedFin sheets rows reason ri mi amount txid true (some (oldA, oldT)) =
      editRewrite (dropLeadEq (pyStripS (cellAt rows ri mi).1))
        (pyStripS (cellAt rows ri mi).2) oldA oldT (amountValueStr amount) txid := by
    unfold savedFin
    rw [hs]
    rfl
  rw [hfin, editRewrite_spec _ _ _ _ _ _ hoa hca hot hct hAparts hTparts]

/-- C1 amended witness: the cell =300+500 holds another user's 300 and the
user's own 500; the edit keeps the 300, drops the 500 and the old id
FTBBB, and appends the new 700.0 and FTCCC. -/
theorem C1_edit_subtract_matching_terms_amended_witness :
    findClearLoc C1W "202" "FTCCC" = none ∧
    dropLeadEq (pyStripS (cellAt [⟨"202", [("=300+500", "FTAAA, FTBBB")]⟩] 0 0).1) =
      "300+500" ∧
    (process_buffered_messages_save C1W "electric" "202" "Meskerem" "700" "FTCCC" true
        (some ("500", "FTBBB"))).2 = none ∧
    cellAt ((lookupSheet
        (process_buffered_messages_save C1W "electric" "202" "Meskerem" "700" "FTCCC" true
          (some ("500", "FTBBB"))).1 "electric").getD []) 0 0 =
      ("=300+700.0", "FTAAA, FTCCC") := by
  have h := C1_edit_subtract_matching_terms_amended C1W "electric" "202" "Meskerem" "700"
    "FTCCC" "500" "FTBBB" [⟨"202", [("=300+500", "FTAAA, FTBBB")]⟩] 0 0
    (by rfl) (by rfl) (by rfl) (by decide) (Or.inr (by rfl)) (by decide) (by decide)
    (by decide) (by decide) (by decide) (by decide)
  exact ⟨by rfl, by rfl, h.1, h.2.trans (by rfl)⟩

/-- C4 amended witness: the bare user text 700 has no explicit house label,
so with stored previous house 555 the house carries over and the amount
becomes 700. -/
theorem C4_edit_mode_bare_number_amended_witness :
    explicitHouseOf "700" = none ∧
    isBareNumber (pyStrip ("700" : String).data) = true ∧
    ((extract_payment_data_buffered_core "receipt ocr text" "caption text" "700" true
        (some "555")).house_number = "555" ∧
      (isBareNumber (pyStrip ("700" : String).data) = true →
        (extract_payment_data_buffered_core "receipt ocr text" "caption text" "700" true
            (some "555")).amount = String.mk (pyStrip ("700" : String).data))) := by
  refine ⟨by decide, by decide, ?_⟩
  exact C4_edit_mode_bare_number_amended "receipt ocr text" "caption text" "700" "555"
    (by decide) (Or.inl (by decide))

/-! ## Float roundtrip lemmas -/

theorem digitChar_isDigit {d : Nat} (h : d < 10) : (digitChar d).isDigit = true := by
  interval_cases d <;> decide

theorem digitVal_digitChar {d : Nat} (h : d < 10) : digitVal (digitChar d) = d := by
  interval_cases d <;> decide

theorem digitsToNat_append_one (xs : List Char) (d : Char) :
    digitsToNat (xs ++ [d]) = digitsToNat xs * 10 + digitVal d := by
  simp [digitsToNat, List.foldl_append]

theorem digitsToNat_natToCharsAux : ∀ (fuel n : Nat), n < fuel →
    digitsToNat (natToCharsAux fuel n) = n := by
  intro fuel
  induction fuel with
  | zero => intro n h; omega
  | succ f ih =>
    intro n h
    unfold natToCharsAux
    by_cases h10 : n < 10
    · rw [if_pos h10]
      have hone : digitsToNat [digitChar n] = digitVal (digitChar n) := by
        simp [digitsToNat]
      rw [hone, digitVal_digitChar h10]
    · rw [if_neg h10, digitsToNat_append_one]
      have hd : n / 10 < n := Nat.div_lt_self (by omega) (by omega)
      rw [ih (n / 10) (by omega), digitVal_digitChar (Nat.mod_lt _ (by omega))]
      omega

theorem digitsToNat_natToChars (n : Nat) : digitsToNat (natToChars n) = n :=
  digitsToNat_natToCharsAux (n + 1) n (Nat.lt_succ_self n)

theorem digit_ne_dot {c : Char} (h : c.isDigit = true) : (decide (c ≠ '.')) = true := by
  simp only [decide_eq_true_eq]
  intro he
  subst he
  exact absurd h (by decide)

theorem pyFloatCents_append_frac (n : Nat) (fr : List Char)
    (hfr : fr.all Char.isDigit = true) (hlen : fr.length ≤ 2) (hne : fr ≠ []) :
    pyFloatCents (natToChars n ++ '.' :: fr) = some (100 * n + fracCents fr) := by
  have hdig : ∀ c ∈ natToChars n, (fun c => decide (c ≠ '.')) c = true :=
    fun c hc => digit_ne_dot (natToChars_digits c hc)
  have hemp : fr.isEmpty = false := by
    cases fr with
    | nil => exact absurd rfl hne
    | cons a t => rfl
  unfold pyFloatCents
  rw [takeWhile_append_all hdig, dropWhile_append_all hdig]
  have h1 : ('.' :: fr).takeWhile (fun c => decide (c ≠ '.')) = [] := by
    rw [List.takeWhile_cons]
    simp
  have h2 : ('.' :: fr).dropWhile (fun c => decide (c ≠ '.')) = '.' :: fr := by
    rw [List.dropWhile_cons]
    simp
  rw [h1, h2, List.append_nil]
  dsimp only
  rw [if_pos]
  · rw [digitsToNat_natToChars]
  · have hall : (natToChars n).all Char.isDigit = true :=
      List.all_eq_true.mpr (fun c hc => natToChars_digits c hc)
    simp [hall, hfr, hlen, hemp]

theorem pyFloatCents_pyFloatStrS (c : Nat) : pyFloatCents (pyFloatStrS c) = some c := by
  have h100 := Nat.div_add_mod c 100
  have h10 := Nat.div_add_mod (c % 100) 10
  have hmm : c % 100 % 10 = c % 10 := Nat.mod_mod_of_dvd c (by norm_num)
  have hlt : c % 100 < 100 := Nat.mod_lt _ (by norm_num)
  have hlt10 : c % 10 < 10 := Nat.mod_lt _ (by norm_num)
  unfold pyFloatStrS
  by_cases h1 : c % 100 = 0
  · rw [if_pos h1, pyFloatCents_append_frac _ _ (by decide) (by decide) (by decide)]
    have hf : fracCents ['0'] = 0 := by decide
    have hv : 100 * (c / 100) + 0 = c := by omega
    rw [hf, hv]
  · rw [if_neg h1]
    by_cases h2 : c % 10 = 0
    · rw [if_pos h2, pyFloatCents_append_frac _ _ ?_ (by simp) (by simp)]
      · have hf : fracCents [digitChar (c % 100 / 10)] = 10 * (c % 100 / 10) := by
          show 10 * digitVal (digitChar (c % 100 / 10)) = _
          rw [digitVal_digitChar (by omega)]
        have hv : 100 * (c / 100) + 10 * (c % 100 / 10) = c := by omega
        rw [hf, hv]
      · simp [digitChar_isDigit (show c % 100 / 10 < 10 by omega)]
    · rw [if_neg h2, pyFloatCents_append_frac _ _ ?_ (by simp) (by simp)]
      · have hf : fracCents [digitChar (c % 100 / 10), digitChar (c % 10)] =
            10 * (c % 100 / 10) + c % 10 := by
          show 10 * digitVal (digitChar (c % 100 / 10)) + digitVal (digitChar (c % 10)) = _
          rw [digitVal_digitChar (by omega), digitVal_digitChar (by omega)]
        have hv : 100 * (c / 100) + (10 * (c % 100 / 10) + c % 10) = c := by omega
        rw [hf, hv]
      · simp [digitChar_isDigit (show c % 100 / 10 < 10 by omega),
          digitChar_isDigit (show c % 10 < 10 by omega)]

/-! ## Noise-floor lemmas, one per extractor stage -/

theorem option_orElse_elim {α : Type} {a b : Option α} {x : α} (h : (a <|> b) = some x) :
    a = some x ∨ b = some x := by
  cases a with
  | some v =>
    left
    exact h
  | none =>
    right
    exact h

theorem acceptGroup_val {g s : List Char} (h : acceptGroup g = some s) :
    ∃ c, pyFloatCents s = some c ∧ 5000 < c := by
  simp only [acceptGroup] at h
  split at h
  · next c hp =>
    split at h
    · next hc =>
      injection h with h2
      subst h2
      exact ⟨c, hp, hc⟩
    · cases h
  · cases h

theorem p1Pass_val {cs s : List Char} (h : p1Pass cs = some s) :
    ∃ c, pyFloatCents s = some c ∧ 5000 < c := by
  unfold p1Pass at h
  split at h
  · exact acceptGroup_val h
  · cases h

theorem p2Pass_val {cs s : List Char} (h : p2Pass cs = some s) :
    ∃ c, pyFloatCents s = some c ∧ 5000 < c := by
  unfold p2Pass at h
  rcases option_orElse_elim h with h1 | h1 <;>
  · split at h1
    · exact acceptGroup_val h1
    · cases h1

theorem p3Pass_val {cs s : List Char} (h : p3Pass cs = some s) :
    ∃ c, pyFloatCents s = some c ∧ 5000 < c := by
  unfold p3Pass at h
  split at h
  · next j g r heq1 =>
    split at h
    · next c hp =>
      split at h
      · next hcond =>
        injection h with h2
        subst h2
        simp only [Bool.and_eq_true, decide_eq_true_eq] at hcond
        exact ⟨c, hp, hcond.1⟩
      · cases h
    · cases h
  · cases h

theorem foldl_min_mem : ∀ (t : List Nat) (a : Nat), t.foldl Nat.min a ∈ a :: t := by
  intro t
  induction t with
  | nil => intro a; exact List.mem_cons_self a []
  | cons b t ih =>
    intro a
    rw [List.foldl_cons]
    rcases List.mem_cons.mp (ih (Nat.min a b)) with h1 | h1
    · rw [h1]
      rcases Nat.le_total a b with hle | hle
      · have hm : Nat.min a b = a := by
          unfold Nat.min
          exact inf_eq_left.mpr hle
        rw [hm]
        exact List.mem_cons_self a (b :: t)
      · have hm : Nat.min a b = b := by
          unfold Nat.min
          exact inf_eq_right.mpr hle
        rw [hm]
        exact List.mem_cons_of_mem a (List.mem_cons_self b t)
    · exact List.mem_cons_of_mem a (List.mem_cons_of_mem b h1)

theorem listMin_mem {l : List Nat} {v : Nat} (h : listMin l = some v) : v ∈ l := by
  cases l with
  | nil => cases h
  | cons a t =>
    injection h with h2
    subst h2
    exact foldl_min_mem t a

theorem p4Vals_gt {cs : List Char} {v : Nat} (h : v ∈ p4Vals cs) : 5000 < v := by
  unfold p4Vals at h
  rcases List.mem_filterMap.mp h with ⟨m, _, hm⟩
  split at hm
  · split at hm
    · next hcond =>
      injection hm with h2
      subst h2
      simp only [Bool.and_eq_true, decide_eq_true_eq] at hcond
      exact hcond.1
    · cases hm
  · cases hm

theorem p4Pass_val {cs s : List Char} (h : p4Pass cs = some s) :
    ∃ c, pyFloatCents s = some c ∧ 5000 < c := by
  unfold p4Pass at h
  split at h
  · next v hv =>
    injection h with h2
    subst h2
    exact ⟨v, pyFloatCents_pyFloatStrS v, p4Vals_gt (listMin_mem hv)⟩
  · cases h

theorem stdPass_val {cs s : List Char} (h : stdPass cs = some s) :
    ∃ c, pyFloatCents s = some c ∧ 5000 < c := by
  unfold stdPass at h
  rcases option_orElse_elim h with h1 | h1
  · exact p1Pass_val h1
  rcases option_orElse_elim h1 with h2 | h2
  · exact p2Pass_val h2
  rcases option_orElse_elim h2 with h3 | h3
  · exact p3Pass_val h3
  · exact p4Pass_val h3

theorem fbAccept_val {g : List Char} (h : fbAccept g = true) :
    ∃ c, pyFloatCents (stripCommas g) = some c ∧ 5000 < c := by
  unfold fbAccept at h
  split at h
  · next c hp => exact ⟨c, hp, of_decide_eq_true h⟩
  · cases h

theorem fbScanAux_val {tryG : List Char → Option (List Char × List Char)} :
    ∀ (fuel : Nat) (atStart : Bool) (l s : List Char),
      fbScanAux tryG fuel atStart l = some s →
      ∃ c, pyFloatCents s = some c ∧ 5000 < c := by
  intro fuel
  induction fuel with
  | zero => intro _ _ _ h; cases h
  | succ f ih =>
    intro atStart l s
    have hstep : fbScanAux tryG (f + 1) atStart l =
        match (if atStart then tryG l else none) <|>
              (match l with
               | c :: t => if isWs c then tryG t else none
               | [] => none) with
        | some (g, r) =>
          if fbAccept g then some (stripCommas g)
          else fbScanAux tryG f false r
        | none =>
          match l with
          | [] => none
          | c :: t => fbScanAux tryG f (c = '\n') t := rfl
    intro h
    rw [hstep] at h
    split at h
    · split at h
      · next hacc =>
        injection h with h2
        subst h2
        exact fbAccept_val hacc
      · exact ih _ _ _ h
    · split at h
      · cases h
      · exact ih _ _ _ h

theorem fallbackPass_val {cs s : List Char} (h : fallbackPass cs = some s) :
    ∃ c, pyFloatCents s = some c ∧ 5000 < c := by
  unfold fallbackPass fbScan at h
  rcases option_orElse_elim h with h1 | h1 <;> exact fbScanAux_val _ _ _ _ h1

theorem extractAmountL_val {cs s : List Char} (h : extractAmountL cs = some s) :
    ∃ c, pyFloatCents s = some c ∧ 5000 < c := by
  unfold extractAmountL at h
  rcases option_orElse_elim h with h1 | h1
  · exact stdPass_val h1
  rcases option_orElse_elim h1 with h2 | h2
  · exact stdPass_val h2
  · exact fallbackPass_val h2

/-- C7: whenever the amount extractor returns a non-empty string, that
string parses as a float of at least 50 (5000 cents): every candidate
below the 50 noise floor is rejected by every stage — settled-amount,
without-VAT, debited, generic minimum, and the standalone fallback. -/
theorem C7_amount_noise_floor (t : String)
    (h : extract_amount_from_receipt t ≠ "") :
    ∃ c, pyFloatCents (extract_amount_from_receipt t).data = some c ∧ 5000 ≤ c := by
  cases he : extractAmountL t.data with
  | none =>
    exfalso
    apply h
    unfold extract_amount_from_receipt
    rw [he]
  | some r =>
    obtain ⟨c, hc, hgt⟩ := extractAmountL_val he
    refine ⟨c, ?_, Nat.le_of_lt hgt⟩
    show pyFloatCents (extract_amount_from_receipt t).data = some c
    unfold extract_amount_from_receipt
    rw [he]
    exact hc

/-- C7 witness on a concrete receipt line: the returned amount 250.75
parses to 25075 cents, at least the 5000-cent floor. -/
theorem C7_amount_noise_floor_witness :
    extract_amount_from_receipt "ETB 250.75" ≠ "" ∧
    ∃ c, pyFloatCents (extract_amount_from_receipt "ETB 250.75").data = some c ∧ 5000 ≤ c :=
  ⟨by decide, C7_amount_noise_floor "ETB 250.75" (by decide)⟩

/-! ## Charset lemmas for the re-wrapped amount text -/

theorem digit_not_ws {c : Char} (h : c.isDigit = true) : isWs c = false := by
  have hle := digit_toNat_le h
  simp only [isWs, Bool.or_eq_false_iff, decide_eq_false_iff_not]
  refine ⟨⟨⟨⟨⟨?_, ?_⟩, ?_⟩, ?_⟩, ?_⟩, ?_⟩ <;> intro hh <;>
    rw [char_eq_iff_toNat] at hh <;> revert hh <;> simp <;> omega

theorem no_letter_allowed {x : Char} (hx97 : 97 ≤ x.toNat)
    (he : x ≠ 'e') (ht : x ≠ 't') (hb : x ≠ 'b') :
    ∀ c, etbAllowed c = true → x ≠ c.toLower := by
  intro c hc
  simp only [etbAllowed, Bool.or_eq_true, decide_eq_true_eq] at hc
  rcases hc with ((((hc | hc) | hc) | hc) | hc) | hc
  · subst hc
    have hv : ('E' : Char).toLower = 'e' := by decide
    rw [hv]
    exact he
  · subst hc
    have hv : ('T' : Char).toLower = 't' := by decide
    rw [hv]
    exact ht
  · subst hc
    have hv : ('B' : Char).toLower = 'b' := by decide
    rw [hv]
    exact hb
  · subst hc
    intro hx
    rw [char_eq_iff_toNat] at hx
    have hv : (' ' : Char).toLower.toNat = 32 := by decide
    omega
  · subst hc
    intro hx
    rw [char_eq_iff_toNat] at hx
    have hv : ('.' : Char).toLower.toNat = 46 := by decide
    omega
  · rw [toLower_eq_self (by have := digit_toNat_le hc; omega)]
    intro hx
    rw [char_eq_iff_toNat] at hx
    have := digit_toNat_le hc
    omega

theorem tail_allowed {c : Char} (h : etbTail c = true) : etbAllowed c = true := by
  simp only [etbTail, Bool.or_eq_true] at h
  simp only [etbAllowed, Bool.or_eq_true]
  tauto

theorem tail_no_e : ∀ c, etbTail c = true → 'e' ≠ c.toLower := by
  intro c hc
  simp only [etbTail, Bool.or_eq_true, decide_eq_true_eq] at hc
  rcases hc with (((hc | hc) | hc) | hc) | hc
  · subst hc; decide
  · subst hc; decide
  · subst hc; decide
  · subst hc; decide
  · rw [toLower_eq_self (by have := digit_toNat_le hc; omega)]
    intro hx
    rw [char_eq_iff_toNat] at hx
    have hv : ('e' : Char).toNat = 101 := by decide
    have := digit_toNat_le hc
    omega

theorem allowed_toLower {c : Char} (h : etbAllowed c = true) : etbLow c.toLower = true := by
  simp only [etbAllowed, Bool.or_eq_true, decide_eq_true_eq] at h
  rcases h with ((((h | h) | h) | h) | h) | h
  · subst h; decide
  · subst h; decide
  · subst h; decide
  · subst h; decide
  · subst h; decide
  · rw [toLower_eq_self (by have := digit_toNat_le h; omega)]
    simp [etbLow, h]

theorem etbLow_ne_letter {x : Char} (hx97 : 97 ≤ x.toNat)
    (he : x ≠ 'e') (ht : x ≠ 't') (hb : x ≠ 'b') :
    ∀ c, etbLow c = true → c ≠ x := by
  intro c hc
  simp only [etbLow, Bool.or_eq_true, decide_eq_true_eq] at hc
  rcases hc with ((((hc | hc) | hc) | hc) | hc) | hc
  · subst hc; exact fun hh => he hh.symm
  · subst hc; exact fun hh => ht hh.symm
  · subst hc; exact fun hh => hb hh.symm
  · subst hc
    intro hh
    rw [char_eq_iff_toNat] at hh
    have hv : (' ' : Char).toNat = 32 := by decide
    omega
  · subst hc
    intro hh
    rw [char_eq_iff_toNat] at hh
    have hv : ('.' : Char).toNat = 46 := by decide
    omega
  · intro hh
    rw [char_eq_iff_toNat] at hh
    have := digit_toNat_le hc
    omega

theorem startsL_false_of_forb {x : Char} :
    ∀ (p l : List Char), x ∈ p → (∀ c ∈ l, c ≠ x) → startsL p l = false := by
  intro p
  induction p with
  | nil => intro l hx _; cases hx
  | cons q ps ih =>
    intro l hx hl
    cases l with
    | nil => rfl
    | cons c t =>
      by_cases hqc : q = c
      · rcases List.mem_cons.mp hx with h1 | h1
        · exact absurd ((h1.trans hqc).symm) (hl c (List.mem_cons_self c t))
        · show (decide (q = c) && startsL ps t) = false
          rw [ih t h1 (fun e he => hl e (List.mem_cons_of_mem c he))]
          simp
      · show (decide (q = c) && startsL ps t) = false
        rw [show (decide (q = c)) = false by simp [hqc]]
        simp

theorem containsL_false_of_forb {x : Char} {p : List Char} (hx : x ∈ p) :
    ∀ l : List Char, (∀ c ∈ l, c ≠ x) → containsL p l = false := by
  intro l
  induction l with
  | nil =>
    intro _
    show p.isEmpty = false
    cases p with
    | nil => cases hx
    | cons a t => rfl
  | cons c t ih =>
    intro hl
    show (startsL p (c :: t) || containsL p t) = false
    rw [startsL_false_of_forb p (c :: t) hx hl,
        ih (fun e he => hl e (List.mem_cons_of_mem c he))]
    rfl

theorem takeWhile_eq_self_of_all {p : Char → Bool} {l : List Char}
    (h : ∀ c ∈ l, p c = true) : l.takeWhile p = l := by
  induction l with
  | nil => rfl
  | cons c t ih =>
    rw [List.takeWhile_cons, h c (List.mem_cons_self c t), if_pos rfl,
        ih (fun e he => h e (List.mem_cons_of_mem c he))]

theorem splitNl_eq_single : ∀ {l : List Char}, (∀ c ∈ l, c ≠ Char.ofNat 10) →
    splitNl l = [l] := by
  intro l
  induction l with
  | nil => intro _; rfl
  | cons c t ih =>
    intro h
    show (if c = Char.ofNat 10 then [] :: splitNl t
          else match splitNl t with
               | a :: r => (c :: a) :: r
               | [] => [[c]]) = [c :: t]
    rw [if_neg (h c (List.mem_cons_self c t)),
        ih (fun e he => h e (List.mem_cons_of_mem c he))]

theorem dropWhile_cons_neg {p : Char → Bool} {c : Char} (h : p c = false) (t : List Char) :
    (c :: t).dropWhile p = c :: t := by
  rw [List.dropWhile_cons, h]
  simp

theorem pyStrip_sandwich {c d : Char} (hc : isWs c = false) (hd : isWs d = false)
    (m : List Char) : pyStrip (c :: (m ++ [d])) = c :: (m ++ [d]) := by
  unfold pyStrip
  rw [dropWhile_cons_neg hc]
  have h2 : (c :: (m ++ [d])).reverse = d :: (m.reverse ++ [c]) := by simp
  rw [h2, dropWhile_cons_neg hd]
  simp

theorem natToChars_ne_nil (n : Nat) : natToChars n ≠ [] := by
  show natToCharsAux (n + 1) n ≠ []
  unfold natToCharsAux
  split
  · simp
  · simp

theorem pyFloatCents_digits (m : Nat) : pyFloatCents (natToChars m) = some (100 * m) := by
  have hdig : ∀ c ∈ natToChars m, (fun c => decide (c ≠ '.')) c = true :=
    fun c hc => digit_ne_dot (natToChars_digits c hc)
  unfold pyFloatCents
  rw [takeWhile_eq_self_of_all hdig, dropWhile_eq_nil_of_all hdig]
  dsimp only
  rw [if_pos]
  · rw [digitsToNat_natToChars]
  · have hne : natToChars m ≠ [] := natToChars_ne_nil m
    have hemp : (natToChars m).isEmpty = false := by
      cases h : natToChars m with
      | nil => exact absurd h hne
      | cons a t => rfl
    have hall : (natToChars m).all Char.isDigit = true :=
      List.all_eq_true.mpr (fun c hc => natToChars_digits c hc)
    simp [hemp, hall]

theorem stripCommas_id {l : List Char} (h : ∀ c ∈ l, c ≠ ',') : stripCommas l = l := by
  unfold stripCommas
  exact List.filter_eq_self.mpr (fun a ha => by simp [h a ha])

/-! ## Stage failure lemmas on the ETB-number alphabet -/

theorem allowed_no_s : ∀ c, etbAllowed c = true → 's' ≠ c.toLower :=
  no_letter_allowed (by decide) (by decide) (by decide) (by decide)

theorem allowed_no_f : ∀ c, etbAllowed c = true → 'f' ≠ c.toLower :=
  no_letter_allowed (by decide) (by decide) (by decide) (by decide)

theorem allowed_no_x : ∀ c, etbAllowed c = true → 'x' ≠ c.toLower :=
  no_letter_allowed (by decide) (by decide) (by decide) (by decide)

theorem allowed_no_d : ∀ c, etbAllowed c = true → 'd' ≠ c.toLower :=
  no_letter_allowed (by decide) (by decide) (by decide) (by decide)

theorem allowed_no_a : ∀ c, etbAllowed c = true → 'a' ≠ c.toLower :=
  no_letter_allowed (by decide) (by decide) (by decide) (by decide)

theorem allowed_no_i : ∀ c, etbAllowed c = true → 'i' ≠ c.toLower :=
  no_letter_allowed (by decide) (by decide) (by decide) (by decide)

theorem allowed_no_amh : ∀ c, etbAllowed c = true → 'ብ' ≠ c.toLower :=
  no_letter_allowed (by decide) (by decide) (by decide) (by decide)

theorem litCI_none_allowed {x : Char} {w : String} {l : List Char}
    (hx : ∀ c, etbAllowed c = true → x ≠ c.toLower) (hm : x ∈ w.data)
    (hl : ∀ c ∈ l, etbAllowed c = true) : litCI w l = none :=
  matchLitCI_none_forb hx w.data l hm hl

theorem litCI_none_tail {x : Char} {w : String} {l : List Char}
    (hx : ∀ c, etbTail c = true → x ≠ c.toLower) (hm : x ∈ w.data)
    (hl : ∀ c ∈ l, etbTail c = true) : litCI w l = none :=
  matchLitCI_none_forb hx w.data l hm hl

theorem tryP1_none {l : List Char} (hl : ∀ c ∈ l, etbAllowed c = true) : tryP1 l = none := by
  unfold tryP1
  rw [litCI_none_allowed allowed_no_s (by decide) hl]
  rfl

theorem tryP2a_none {l : List Char} (hl : ∀ c ∈ l, etbAllowed c = true) : tryP2a l = none := by
  unfold tryP2a
  apply tryAlts_none
  intro p hp
  simp only [vatLabelsA, List.mem_cons, List.not_mem_nil, or_false] at hp
  rcases hp with rfl | rfl | rfl | rfl | rfl | rfl | rfl
  · exact litCI_none_allowed allowed_no_s (by decide) hl
  · exact litCI_none_allowed allowed_no_s (by decide) hl
  · exact litCI_none_allowed allowed_no_s (by decide) hl
  · exact litCI_none_allowed allowed_no_f (by decide) hl
  · exact litCI_none_allowed allowed_no_x (by decide) hl
  · exact litCI_none_allowed allowed_no_x (by decide) hl
  · exact litCI_none_allowed allowed_no_x (by decide) hl

theorem tryAltsVatB_none {k : List Char → Option (List Char × List Char)} {l : List Char}
    (hl : ∀ c ∈ l, etbAllowed c = true) : tryAlts vatLabelsB k l = none := by
  apply tryAlts_none
  intro p hp
  simp only [vatLabelsB, List.mem_cons, List.not_mem_nil, or_false] at hp
  rcases hp with rfl | rfl | rfl | rfl
  · exact litCI_none_allowed allowed_no_f (by decide) hl
  · exact litCI_none_allowed allowed_no_x (by decide) hl
  · exact litCI_none_allowed allowed_no_x (by decide) hl
  · exact litCI_none_allowed allowed_no_x (by decide) hl

theorem tryP2b_none {l : List Char} (hl : ∀ c ∈ l, etbAllowed c = true) : tryP2b l = none := by
  have hmem2 : ∀ c ∈ skipWs (l.dropWhile isDigitComma), etbAllowed c = true :=
    fun c hc => hl c (dropWhile_subset (dropWhile_subset hc))
  unfold tryP2b
  dsimp only
  by_cases hd : (l.takeWhile isDigitComma).isEmpty = true
  · rw [if_pos hd]
  · rw [if_neg hd]
    split
    · next a b r2 heq =>
      have hm2 : ∀ c ∈ skipWs r2, etbAllowed c = true := by
        intro c hc
        apply hl
        apply dropWhile_subset (p := isDigitComma)
        rw [heq]
        exact List.mem_cons_of_mem _ (List.mem_cons_of_mem _ (List.mem_cons_of_mem _
          (dropWhile_subset hc)))
      split
      · rw [tryAltsVatB_none hm2, tryAltsVatB_none hmem2]
        rfl
      · rw [tryAltsVatB_none hmem2]
        rfl
    · rw [tryAltsVatB_none hmem2]
      rfl

theorem tryAltsCurr_none {k : List Char → Option (List Char × List Char)} {l : List Char}
    (hl : ∀ c ∈ l, etbTail c = true) : tryAlts currAlts k l = none := by
  apply tryAlts_none
  intro p hp
  simp only [currAlts, List.mem_cons, List.not_mem_nil, or_false] at hp
  rcases hp with rfl | rfl | rfl
  · exact litCI_none_tail tail_no_e (by decide) hl
  · exact litCI_none_tail (fun c hc => allowed_no_i c (tail_allowed hc)) (by decide) hl
  · exact litCI_none_tail (fun c hc => allowed_no_amh c (tail_allowed hc)) (by decide) hl

theorem tryS3_none {l : List Char} (hl : ∀ c ∈ l, etbTail c = true) : tryS3 l = none := by
  unfold tryS3
  exact tryAltsCurr_none hl

theorem tryS4_none {l : List Char} (hl : ∀ c ∈ l, etbTail c = true) : tryS4 l = none := by
  have hmem2 : ∀ c ∈ skipWs (l.dropWhile isDigitComma), etbTail c = true :=
    fun c hc => hl c (dropWhile_subset (dropWhile_subset hc))
  unfold tryS4
  dsimp only
  by_cases hd : (l.takeWhile isDigitComma).isEmpty = true
  · rw [if_pos hd]
  · rw [if_neg hd]
    split
    · next a b r2 heq =>
      have hm2 : ∀ c ∈ skipWs r2, etbTail c = true := by
        intro c hc
        apply hl
        apply dropWhile_subset (p := isDigitComma)
        rw [heq]
        exact List.mem_cons_of_mem _ (List.mem_cons_of_mem _ (List.mem_cons_of_mem _
          (dropWhile_subset hc)))
      split
      · rw [tryAltsCurr_none hm2, tryAltsCurr_none hmem2]
        rfl
      · rw [tryAltsCurr_none hmem2]
        rfl
    · rw [tryAltsCurr_none hmem2]
      rfl

theorem tryS1_none {l : List Char} (hl : ∀ c ∈ l, etbAllowed c = true) : tryS1 l = none := by
  unfold tryS1
  rw [litCI_none_allowed allowed_no_d (by decide) hl]
  rfl

theorem tryS2_none {l : List Char} (hl : ∀ c ∈ l, etbAllowed c = true) : tryS2 l = none := by
  unfold tryS2
  rw [litCI_none_allowed allowed_no_a (by decide) hl]
  rfl

theorem tryP3_none_tail {l : List Char} (hl : ∀ c ∈ l, etbTail c = true) : tryP3 l = none := by
  unfold tryP3
  rw [litCI_none_tail tail_no_e (by decide) hl]
  rfl

theorem searchIdx_cons (tryAt : List Char → Option (List Char × List Char)) (i : Nat)
    (c : Char) (t : List Char) :
    searchIdx tryAt i (c :: t) =
      match tryAt (c :: t) with
      | some (g, r) => some (i, g, r)
      | none => searchIdx tryAt (i + 1) t := rfl

theorem finditerAux_succ (tryAt : List Char → Option (List Char × List Char))
    (f i : Nat) (l : List Char) :
    finditerAux tryAt (f + 1) i l =
      match searchIdx tryAt i l with
      | none => []
      | some (j, g, r) => (j, g) :: finditerAux tryAt f (i + (l.length - r.length)) r := rfl

theorem finditerAux_nil_of_none {tryAt : List Char → Option (List Char × List Char)} :
    ∀ (fuel i : Nat) (l : List Char), searchIdx tryAt i l = none →
      finditerAux tryAt fuel i l = [] := by
  intro fuel
  cases fuel with
  | zero => intro i l _; rfl
  | succ f =>
    intro i l h
    rw [finditerAux_succ, h]

theorem finditer_nil_of_none {tryAt : List Char → Option (List Char × List Char)}
    {l : List Char} (h : searchIdx tryAt 0 l = none) : finditer tryAt l = [] :=
  finditerAux_nil_of_none (l.length + 1) 0 l h

theorem searchIdx_cons_none {tryAt : List Char → Option (List Char × List Char)}
    {c : Char} {t : List Char} {i : Nat} (h : tryAt (c :: t) = none) :
    searchIdx tryAt i (c :: t) = searchIdx tryAt (i + 1) t := by
  rw [searchIdx_cons, h]

/-! ## Symbolic evaluation of the extractor on ETB <digits>.<fraction> -/

theorem mem_tail_etbTail {m : Nat} {fr : List Char} (hfr : ∀ c ∈ fr, c.isDigit = true) :
    ∀ c ∈ ('T' :: 'B' :: ' ' :: (natToChars m ++ '.' :: fr)), etbTail c = true := by
  intro c hc
  rcases List.mem_cons.mp hc with rfl | hc
  · decide
  rcases List.mem_cons.mp hc with rfl | hc
  · decide
  rcases List.mem_cons.mp hc with rfl | hc
  · decide
  rcases List.mem_append.mp hc with hc | hc
  · simp [etbTail, natToChars_digits c hc]
  rcases List.mem_cons.mp hc with rfl | hc
  · decide
  · simp [etbTail, hfr c hc]

theorem mem_cs_allowed {m : Nat} {fr : List Char} (hfr : ∀ c ∈ fr, c.isDigit = true) :
    ∀ c ∈ ('E' :: 'T' :: 'B' :: ' ' :: (natToChars m ++ '.' :: fr)), etbAllowed c = true := by
  intro c hc
  rcases List.mem_cons.mp hc with rfl | hc
  · decide
  · exact tail_allowed (mem_tail_etbTail hfr c hc)

theorem allowed_ne_nl {c : Char} (h : etbAllowed c = true) : c ≠ Char.ofNat 10 := by
  simp only [etbAllowed, Bool.or_eq_true, decide_eq_true_eq] at h
  rcases h with ((((h | h) | h) | h) | h) | h
  · subst h; decide
  · subst h; decide
  · subst h; decide
  · subst h; decide
  · subst h; decide
  · intro he
    rw [char_eq_iff_toNat] at he
    have h10 : (Char.ofNat 10).toNat = 10 := by decide
    have := digit_toNat_le h
    omega

theorem matchAmtGroup_shape2 (m : Nat) (a b : Char) (ha : a.isDigit = true)
    (hb : b.isDigit = true) :
    matchAmtGroup (natToChars m ++ '.' :: [a, b]) =
      some (natToChars m ++ '.' :: a :: b :: [], []) := by
  have hdc : ∀ c ∈ natToChars m, isDigitComma c = true := by
    intro c hc
    simp [isDigitComma, natToChars_digits c hc]
  have hemp : (natToChars m).isEmpty = false := by
    cases h : natToChars m with
    | nil => exact absurd h (natToChars_ne_nil m)
    | cons x t => rfl
  unfold matchAmtGroup
  dsimp only
  rw [takeWhile_append_all hdc, dropWhile_append_all hdc]
  have h1 : ('.' :: [a, b]).takeWhile isDigitComma = [] := by
    rw [List.takeWhile_cons]
    simp [show isDigitComma '.' = false from by decide]
  have h2 : ('.' :: [a, b]).dropWhile isDigitComma = '.' :: [a, b] :=
    dropWhile_cons_neg (by decide) _
  rw [h1, h2, List.append_nil, if_neg (by simp [hemp])]
  show (if (a.isDigit && b.isDigit) = true
        then some (natToChars m ++ ['.', a, b], ([] : List Char))
        else some (natToChars m, ['.', a, b])) = some (natToChars m ++ '.' :: a :: b :: [], [])
  rw [if_pos (by simp [ha, hb])]

theorem matchAmtGroup_shape1 (m : Nat) (a : Char) :
    matchAmtGroup (natToChars m ++ '.' :: [a]) = some (natToChars m, ['.', a]) := by
  have hdc : ∀ c ∈ natToChars m, isDigitComma c = true := by
    intro c hc
    simp [isDigitComma, natToChars_digits c hc]
  have hemp : (natToChars m).isEmpty = false := by
    cases h : natToChars m with
    | nil => exact absurd h (natToChars_ne_nil m)
    | cons x t => rfl
  unfold matchAmtGroup
  rw [takeWhile_append_all hdc, dropWhile_append_all hdc]
  have h1 : ('.' :: [a]).takeWhile isDigitComma = [] := by
    rw [List.takeWhile_cons]
    simp [show isDigitComma '.' = false from by decide]
  have h2 : ('.' :: [a]).dropWhile isDigitComma = '.' :: [a] :=
    dropWhile_cons_neg (by decide) _
  rw [h1, h2, List.append_nil, if_neg (by simp [hemp])]
  rfl

theorem litCI_etb_cons (r : List Char) :
    litCI "etb" ('E' :: 'T' :: 'B' :: r) = some r := by
  show matchLitCI ['e', 't', 'b'] ('E' :: 'T' :: 'B' :: r) = some r
  simp +decide [matchLitCI]

theorem skipWs_space_digits (m : Nat) (x : List Char) :
    skipWs (' ' :: (natToChars m ++ x)) = natToChars m ++ x := by
  show (' ' :: (natToChars m ++ x)).dropWhile isWs = natToChars m ++ x
  rw [List.dropWhile_cons]
  rw [show isWs ' ' = true from rfl, if_pos rfl]
  cases hD : natToChars m with
  | nil => exact absurd hD (natToChars_ne_nil m)
  | cons a t =>
    rw [List.cons_append]
    apply dropWhile_cons_neg
    apply digit_not_ws
    apply natToChars_digits (n := m)
    rw [hD]
    exact List.mem_cons_self a t

theorem tryS3_cs2 (m : Nat) (a b : Char) (ha : a.isDigit = true) (hb : b.isDigit = true) :
    tryS3 ('E' :: 'T' :: 'B' :: ' ' :: (natToChars m ++ '.' :: [a, b])) =
      some (natToChars m ++ '.' :: a :: b :: [], []) := by
  show tryAlts currAlts (fun r => matchAmtGroup (skipWs r))
      ('E' :: 'T' :: 'B' :: ' ' :: (natToChars m ++ '.' :: [a, b])) = _
  rw [show (currAlts : List String) = "etb" :: "birr" :: "ብር" :: [] from rfl]
  simp only [tryAlts]
  rw [litCI_etb_cons]
  have hbind : (some (' ' :: (natToChars m ++ '.' :: [a, b])) >>= fun r =>
      matchAmtGroup (skipWs r)) = some (natToChars m ++ '.' :: a :: b :: [], []) := by
    show matchAmtGroup (skipWs (' ' :: (natToChars m ++ '.' :: [a, b]))) = _
    rw [skipWs_space_digits]
    exact matchAmtGroup_shape2 m a b ha hb
  rw [hbind]
  rfl

theorem tryS3_cs1 (m : Nat) (a : Char) :
    tryS3 ('E' :: 'T' :: 'B' :: ' ' :: (natToChars m ++ '.' :: [a])) =
      some (natToChars m, ['.', a]) := by
  show tryAlts currAlts (fun r => matchAmtGroup (skipWs r))
      ('E' :: 'T' :: 'B' :: ' ' :: (natToChars m ++ '.' :: [a])) = _
  rw [show (currAlts : List String) = "etb" :: "birr" :: "ብር" :: [] from rfl]
  simp only [tryAlts]
  rw [litCI_etb_cons]
  have hbind : (some (' ' :: (natToChars m ++ '.' :: [a])) >>= fun r =>
      matchAmtGroup (skipWs r)) = some (natToChars m, ['.', a]) := by
    show matchAmtGroup (skipWs (' ' :: (natToChars m ++ '.' :: [a]))) = _
    rw [skipWs_space_digits]
    exact matchAmtGroup_shape1 m a
  rw [hbind]
  rfl

theorem tryP3_cs2 (m : Nat) (a b : Char) (ha : a.isDigit = true) (hb : b.isDigit = true) :
    tryP3 ('E' :: 'T' :: 'B' :: ' ' :: (natToChars m ++ '.' :: [a, b])) = none := by
  unfold tryP3
  rw [litCI_etb_cons]
  show (matchAmtGroup (skipWs (' ' :: (natToChars m ++ '.' :: [a, b]))) >>= fun gr =>
      wsPlus gr.2 >>= fun r3 => litCI "debited" r3 >>= fun _ => some gr) = none
  rw [skipWs_space_digits, matchAmtGroup_shape2 m a b ha hb]
  rfl

theorem tryP3_cs1 (m : Nat) (a : Char) :
    tryP3 ('E' :: 'T' :: 'B' :: ' ' :: (natToChars m ++ '.' :: [a])) = none := by
  unfold tryP3
  rw [litCI_etb_cons]
  show (matchAmtGroup (skipWs (' ' :: (natToChars m ++ '.' :: [a]))) >>= fun gr =>
      wsPlus gr.2 >>= fun r3 => litCI "debited" r3 >>= fun _ => some gr) = none
  rw [skipWs_space_digits, matchAmtGroup_shape1 m a]
  rfl

theorem tryS4_E (r : List Char) : tryS4 ('E' :: r) = none := by
  unfold tryS4
  dsimp only
  rw [List.takeWhile_cons, show isDigitComma 'E' = false from by decide]
  simp

theorem normalizeAmountLinesL_id {cs : List Char} (hne : cs ≠ [])
    (hnl : ∀ c ∈ cs, c ≠ Char.ofNat 10) (hstrip : pyStrip cs = cs) :
    normalizeAmountLinesL cs = cs := by
  unfold normalizeAmountLinesL
  rw [splitNl_eq_single hnl]
  have hemp : cs.isEmpty = false := by
    cases cs with
    | nil => exact absurd rfl hne
    | cons a t => rfl
  have h1 : normLines [cs] = [cs] := by
    show (if (pyStrip cs).isEmpty then [] else [pyStrip cs]) = [cs]
    rw [hstrip, hemp]
    simp
  rw [h1]
  rfl

theorem searchIdx_nil (tryAt : List Char → Option (List Char × List Char)) (i : Nat) :
    searchIdx tryAt i [] =
      match tryAt [] with
      | some (g, r) => some (i, g, r)
      | none => none := rfl

theorem searchIdx_nil_none {tryAt : List Char → Option (List Char × List Char)}
    (h : tryAt [] = none) (i : Nat) : searchIdx tryAt i [] = none := by
  rw [searchIdx_nil, h]

theorem finditer_single_rest {tryAt : List Char → Option (List Char × List Char)}
    {l g r : List Char} (h : tryAt l = some (g, r)) (hl : l ≠ [])
    (hrest : ∀ i, searchIdx tryAt i r = none) :
    finditer tryAt l = [(0, g)] := by
  cases l with
  | nil => exact absurd rfl hl
  | cons c t =>
    show finditerAux tryAt ((c :: t).length + 1) 0 (c :: t) = [(0, g)]
    rw [finditerAux_succ, searchIdx_cons, h]
    show (0, g) :: finditerAux tryAt ((c :: t).length)
        (0 + ((c :: t).length - r.length)) r = [(0, g)]
    rw [finditerAux_nil_of_none _ _ _ (hrest _)]

theorem containsS_total_false {l : List Char} (hl : ∀ c ∈ l, etbLow c = true) :
    containsS "total" l = false :=
  containsL_false_of_forb (x := 'o') (by decide) l
    (fun c hc => etbLow_ne_letter (by decide) (by decide) (by decide) (by decide) c (hl c hc))

theorem containsS_comm_false {l : List Char} (hl : ∀ c ∈ l, etbLow c = true) :
    containsS "with commission" l = false :=
  containsL_false_of_forb (x := 'w') (by decide) l
    (fun c hc => etbLow_ne_letter (by decide) (by decide) (by decide) (by decide) c (hl c hc))

theorem containsS_svc_false {l : List Char} (hl : ∀ c ∈ l, etbLow c = true) :
    containsS "service charge" l = false :=
  containsL_false_of_forb (x := 'v') (by decide) l
    (fun c hc => etbLow_ne_letter (by decide) (by decide) (by decide) (by decide) c (hl c hc))

theorem containsS_vat_false {l : List Char} (hl : ∀ c ∈ l, etbLow c = true) :
    containsS "vat" l = false :=
  containsL_false_of_forb (x := 'v') (by decide) l
    (fun c hc => etbLow_ne_letter (by decide) (by decide) (by decide) (by decide) c (hl c hc))

theorem ctxOk_allowed {cs : List Char} (hcs : ∀ c ∈ cs, etbAllowed c = true) (j : Nat) :
    ctxOk cs j = true := by
  have hsl : ∀ c ∈ lowerL ((cs.drop (j - 30)).take (j + 100 - (j - 30))), etbLow c = true := by
    intro c hc
    rcases List.mem_map.mp hc with ⟨c0, hc0, rfl⟩
    exact allowed_toLower (hcs c0 (List.mem_of_mem_drop (List.mem_of_mem_take hc0)))
  unfold ctxOk
  dsimp only
  rw [show (amountBadCtx : List String) =
      "total" :: "with commission" :: "service charge" :: "vat" :: [] from rfl]
  simp only [List.any_cons, List.any_nil]
  rw [containsS_total_false hsl, containsS_comm_false hsl, containsS_svc_false hsl,
      containsS_vat_false hsl]
  rfl

theorem p1Pass_etb {m : Nat} {fr : List Char} (hfr : ∀ c ∈ fr, c.isDigit = true) :
    p1Pass ('E' :: 'T' :: 'B' :: ' ' :: (natToChars m ++ '.' :: fr)) = none := by
  unfold p1Pass
  rw [searchIdx_none_of_all (fun l hl => tryP1_none hl) rfl 0 _ (mem_cs_allowed hfr)]

theorem p2Pass_etb {m : Nat} {fr : List Char} (hfr : ∀ c ∈ fr, c.isDigit = true) :
    p2Pass ('E' :: 'T' :: 'B' :: ' ' :: (natToChars m ++ '.' :: fr)) = none := by
  unfold p2Pass
  rw [searchIdx_none_of_all (fun l hl => tryP2a_none hl) rfl 0 _ (mem_cs_allowed hfr),
      searchIdx_none_of_all (fun l hl => tryP2b_none hl) rfl 0 _ (mem_cs_allowed hfr)]
  rfl

theorem p3Pass_etb2 (m : Nat) (a b : Char) (ha : a.isDigit = true) (hb : b.isDigit = true) :
    p3Pass ('E' :: 'T' :: 'B' :: ' ' :: (natToChars m ++ '.' :: [a, b])) = none := by
  have hfr : ∀ c ∈ [a, b], c.isDigit = true := by
    intro c hc
    rcases List.mem_cons.mp hc with rfl | hc
    · exact ha
    rcases List.mem_cons.mp hc with rfl | hc
    · exact hb
    · cases hc
  unfold p3Pass
  rw [searchIdx_cons_none (tryP3_cs2 m a b ha hb),
      searchIdx_none_of_all (fun l hl => tryP3_none_tail hl) rfl 1 _ (mem_tail_etbTail hfr)]

theorem p3Pass_etb1 (m : Nat) (a : Char) (ha : a.isDigit = true) :
    p3Pass ('E' :: 'T' :: 'B' :: ' ' :: (natToChars m ++ '.' :: [a])) = none := by
  have hfr : ∀ c ∈ [a], c.isDigit = true := by
    intro c hc
    rcases List.mem_cons.mp hc with rfl | hc
    · exact ha
    · cases hc
  unfold p3Pass
  rw [searchIdx_cons_none (tryP3_cs1 m a),
      searchIdx_none_of_all (fun l hl => tryP3_none_tail hl) rfl 1 _ (mem_tail_etbTail hfr)]

theorem p4Pass_etb2 (m : Nat) (a b : Char) (ha : a.isDigit = true) (hb : b.isDigit = true)
    (hv : 5000 < 100 * m + fracCents [a, b]) :
    p4Pass ('E' :: 'T' :: 'B' :: ' ' :: (natToChars m ++ '.' :: [a, b])) =
      some (pyFloatStrS (100 * m + fracCents [a, b])) := by
  have hfr : ∀ c ∈ [a, b], c.isDigit = true := by
    intro c hc
    rcases List.mem_cons.mp hc with rfl | hc
    · exact ha
    rcases List.mem_cons.mp hc with rfl | hc
    · exact hb
    · cases hc
  have hS1 : finditer tryS1 ('E' :: 'T' :: 'B' :: ' ' :: (natToChars m ++ '.' :: [a, b])) = [] :=
    finditer_nil_of_none
      (searchIdx_none_of_all (fun l hl => tryS1_none hl) rfl 0 _ (mem_cs_allowed hfr))
  have hS2 : finditer tryS2 ('E' :: 'T' :: 'B' :: ' ' :: (natToChars m ++ '.' :: [a, b])) = [] :=
    finditer_nil_of_none
      (searchIdx_none_of_all (fun l hl => tryS2_none hl) rfl 0 _ (mem_cs_allowed hfr))
  have hS4 : finditer tryS4 ('E' :: 'T' :: 'B' :: ' ' :: (natToChars m ++ '.' :: [a, b])) = [] := by
    apply finditer_nil_of_none
    rw [searchIdx_cons_none (tryS4_E _)]
    exact searchIdx_none_of_all (fun l hl => tryS4_none hl) rfl 1 _ (mem_tail_etbTail hfr)
  have hS3 : finditer tryS3 ('E' :: 'T' :: 'B' :: ' ' :: (natToChars m ++ '.' :: [a, b])) =
      [(0, natToChars m ++ '.' :: a :: b :: [])] := by
    apply finditer_single_rest (tryS3_cs2 m a b ha hb) (by simp)
    exact fun i => searchIdx_nil_none rfl i
  have hnc : ∀ c ∈ (natToChars m ++ '.' :: [a, b]), c ≠ ',' := by
    intro c hc
    rcases List.mem_append.mp hc with hc | hc
    · have hd := natToChars_digits c hc
      intro he
      subst he
      exact absurd hd (by decide)
    rcases List.mem_cons.mp hc with rfl | hc
    · decide
    rcases List.mem_cons.mp hc with rfl | hc
    · intro he; subst he; exact absurd ha (by decide)
    rcases List.mem_cons.mp hc with rfl | hc
    · intro he; subst he; exact absurd hb (by decide)
    · cases hc
  have hg : pyFloatCents (stripCommas (natToChars m ++ '.' :: a :: b :: [])) =
      some (100 * m + fracCents [a, b]) := by
    rw [stripCommas_id hnc]
    exact pyFloatCents_append_frac m [a, b] (by simp [ha, hb]) (by simp) (by simp)
  have hctx : ctxOk ('E' :: 'T' :: 'B' :: ' ' :: (natToChars m ++ '.' :: [a, b])) 0 = true :=
    ctxOk_allowed (mem_cs_allowed hfr) 0
  unfold p4Pass p4Vals p4Candidates
  rw [hS1, hS2, hS3, hS4]
  simp only [List.nil_append, List.append_nil, List.filterMap_cons, List.filterMap_nil]
  rw [hg]
  simp [hctx, hv, listMin]

theorem p4Pass_etb1 (m : Nat) (a : Char) (ha : a.isDigit = true)
    (hv : 5000 < 100 * m) :
    p4Pass ('E' :: 'T' :: 'B' :: ' ' :: (natToChars m ++ '.' :: [a])) =
      some (pyFloatStrS (100 * m)) := by
  have hfr : ∀ c ∈ [a], c.isDigit = true := by
    intro c hc
    rcases List.mem_cons.mp hc with rfl | hc
    · exact ha
    · cases hc
  have hS1 : finditer tryS1 ('E' :: 'T' :: 'B' :: ' ' :: (natToChars m ++ '.' :: [a])) = [] :=
    finditer_nil_of_none
      (searchIdx_none_of_all (fun l hl => tryS1_none hl) rfl 0 _ (mem_cs_allowed hfr))
  have hS2 : finditer tryS2 ('E' :: 'T' :: 'B' :: ' ' :: (natToChars m ++ '.' :: [a])) = [] :=
    finditer_nil_of_none
      (searchIdx_none_of_all (fun l hl => tryS2_none hl) rfl 0 _ (mem_cs_allowed hfr))
  have hS4 : finditer tryS4 ('E' :: 'T' :: 'B' :: ' ' :: (natToChars m ++ '.' :: [a])) = [] := by
    apply finditer_nil_of_none
    rw [searchIdx_cons_none (tryS4_E _)]
    exact searchIdx_none_of_all (fun l hl => tryS4_none hl) rfl 1 _ (mem_tail_etbTail hfr)
  have hrmem : ∀ c ∈ (['.', a] : List Char), etbTail c = true := by
    intro c hc
    rcases List.mem_cons.mp hc with rfl | hc
    · decide
    rcases List.mem_cons.mp hc with rfl | hc
    · simp [etbTail, ha]
    · cases hc
  have hS3 : finditer tryS3 ('E' :: 'T' :: 'B' :: ' ' :: (natToChars m ++ '.' :: [a])) =
      [(0, natToChars m)] := by
    apply finditer_single_rest (tryS3_cs1 m a) (by simp)
    exact fun i => searchIdx_none_of_all (fun l hl => tryS3_none hl) rfl i _ hrmem
  have hnc : ∀ c ∈ natToChars m, c ≠ ',' := by
    intro c hc
    have hd := natToChars_digits c hc
    intro he
    subst he
    exact absurd hd (by decide)
  have hg : pyFloatCents (stripCommas (natToChars m)) = some (100 * m) := by
    rw [stripCommas_id hnc]
    exact pyFloatCents_digits m
  have hctx : ctxOk ('E' :: 'T' :: 'B' :: ' ' :: (natToChars m ++ '.' :: [a])) 0 = true :=
    ctxOk_allowed (mem_cs_allowed hfr) 0
  unfold p4Pass p4Vals p4Candidates
  rw [hS1, hS2, hS3, hS4]
  simp only [List.nil_append, List.append_nil, List.filterMap_cons, List.filterMap_nil]
  rw [hg]
  simp [hctx, hv, listMin]

theorem stdPass_etb2 (m : Nat) (a b : Char) (ha : a.isDigit = true) (hb : b.isDigit = true)
    (hv : 5000 < 100 * m + fracCents [a, b]) :
    stdPass ('E' :: 'T' :: 'B' :: ' ' :: (natToChars m ++ '.' :: [a, b])) =
      some (pyFloatStrS (100 * m + fracCents [a, b])) := by
  have hfr : ∀ c ∈ [a, b], c.isDigit = true := by
    intro c hc
    rcases List.mem_cons.mp hc with rfl | hc
    · exact ha
    rcases List.mem_cons.mp hc with rfl | hc
    · exact hb
    · cases hc
  unfold stdPass
  rw [p1Pass_etb hfr, p2Pass_etb hfr, p3Pass_etb2 m a b ha hb, p4Pass_etb2 m a b ha hb hv]
  rfl

theorem stdPass_etb1 (m : Nat) (a : Char) (ha : a.isDigit = true) (hv : 5000 < 100 * m) :
    stdPass ('E' :: 'T' :: 'B' :: ' ' :: (natToChars m ++ '.' :: [a])) =
      some (pyFloatStrS (100 * m)) := by
  have hfr : ∀ c ∈ [a], c.isDigit = true := by
    intro c hc
    rcases List.mem_cons.mp hc with rfl | hc
    · exact ha
    · cases hc
  unfold stdPass
  rw [p1Pass_etb hfr, p2Pass_etb hfr, p3Pass_etb1 m a ha, p4Pass_etb1 m a ha hv]
  rfl

theorem extractAmountL_etb2 (m : Nat) (a b : Char) (ha : a.isDigit = true)
    (hb : b.isDigit = true) (hv : 5000 < 100 * m + fracCents [a, b]) :
    extractAmountL ('E' :: 'T' :: 'B' :: ' ' :: (natToChars m ++ '.' :: [a, b])) =
      some (pyFloatStrS (100 * m + fracCents [a, b])) := by
  have hfr : ∀ c ∈ [a, b], c.isDigit = true := by
    intro c hc
    rcases List.mem_cons.mp hc with rfl | hc
    · exact ha
    rcases List.mem_cons.mp hc with rfl | hc
    · exact hb
    · cases hc
  have hstrip : pyStrip ('E' :: 'T' :: 'B' :: ' ' :: (natToChars m ++ '.' :: [a, b])) =
      'E' :: 'T' :: 'B' :: ' ' :: (natToChars m ++ '.' :: [a, b]) := by
    have hsh : ('E' :: 'T' :: 'B' :: ' ' :: (natToChars m ++ '.' :: [a, b])) =
        'E' :: (('T' :: 'B' :: ' ' :: (natToChars m ++ ['.', a])) ++ [b]) := by simp
    rw [hsh]
    exact pyStrip_sandwich (by decide) (digit_not_ws hb) _
  unfold extractAmountL
  rw [normalizeAmountLinesL_id (by simp)
      (fun c hc => allowed_ne_nl (mem_cs_allowed hfr c hc)) hstrip,
      stdPass_etb2 m a b ha hb hv]
  rfl

theorem extractAmountL_etb1 (m : Nat) (a : Char) (ha : a.isDigit = true)
    (hv : 5000 < 100 * m) :
    extractAmountL ('E' :: 'T' :: 'B' :: ' ' :: (natToChars m ++ '.' :: [a])) =
      some (pyFloatStrS (100 * m)) := by
  have hfr : ∀ c ∈ [a], c.isDigit = true := by
    intro c hc
    rcases List.mem_cons.mp hc with rfl | hc
    · exact ha
    · cases hc
  have hstrip : pyStrip ('E' :: 'T' :: 'B' :: ' ' :: (natToChars m ++ '.' :: [a])) =
      'E' :: 'T' :: 'B' :: ' ' :: (natToChars m ++ '.' :: [a]) := by
    have hsh : ('E' :: 'T' :: 'B' :: ' ' :: (natToChars m ++ '.' :: [a])) =
        'E' :: (('T' :: 'B' :: ' ' :: (natToChars m ++ ['.'])) ++ [a]) := by simp
    rw [hsh]
    exact pyStrip_sandwich (by decide) (digit_not_ws ha) _
  unfold extractAmountL
  rw [normalizeAmountLinesL_id (by simp)
      (fun c hc => allowed_ne_nl (mem_cs_allowed hfr c hc)) hstrip,
      stdPass_etb1 m a ha hv]
  rfl

/-- C9 counterexample: on ETB 100.50 the extractor returns 100.5 (the
generic stage renders its minimum through str(float), dropping the
trailing zero), but re-running it on ETB 100.5 returns 100.0 — the amount
group takes a fraction only when exactly two digits follow the dot — so
the claimed idempotence through re-wrapping fails. -/
theorem C9_counterexample_trailing_zero :
    extract_amount_from_receipt "ETB 100.50" = "100.5" ∧
    extract_amount_from_receipt ("ETB " ++ extract_amount_from_receipt "ETB 100.50") =
      "100.0" ∧
    ("100.0" : String) ≠ "100.5" := by
  refine ⟨by decide, by decide, by decide⟩

/-- C9 amended: for amounts already in str(float) form (as the generic
stage emits), re-extraction from ETB <amount> returns the same amount
whenever the cents value has no single trailing nonzero tenths digit
(last cents digit nonzero, or a whole number of birr); when the value
ends in a single nonzero tenths digit the fraction is dropped and the
whole-birr value returns instead, which is then a fixpoint. -/
theorem C9_rewrap_idempotence_amended :
    (∀ c : Nat, 5000 < c → (c % 10 ≠ 0 ∨ c % 100 = 0) →
      extract_amount_from_receipt ("ETB " ++ pyFloatStr c) = pyFloatStr c) ∧
    (∀ c : Nat, 5000 < c → c % 10 = 0 → c % 100 ≠ 0 → 5000 < 100 * (c / 100) →
      extract_amount_from_receipt ("ETB " ++ pyFloatStr c) =
        pyFloatStr (100 * (c / 100))) := by
  have hdata : ∀ c : Nat, ("ETB " ++ pyFloatStr c).data =
      'E' :: 'T' :: 'B' :: ' ' :: pyFloatStrS c := by
    intro c
    rw [String.data_append]
    rfl
  constructor
  · intro c hc hcond
    unfold extract_amount_from_receipt
    rw [hdata c]
    by_cases h1 : c % 100 = 0
    · have hfs : pyFloatStrS c = natToChars (c / 100) ++ '.' :: ['0'] := by
        unfold pyFloatStrS
        rw [if_pos h1]
      have hdm := Nat.div_add_mod c 100
      rw [hfs, extractAmountL_etb1 (c / 100) '0' (by decide) (by omega)]
      have hcc : 100 * (c / 100) = c := by omega
      rw [hcc]
      rfl
    · have h2 : c % 10 ≠ 0 := by
        rcases hcond with h | h
        · exact h
        · exact absurd h h1
      have hfs : pyFloatStrS c = natToChars (c / 100) ++
          '.' :: [digitChar (c % 100 / 10), digitChar (c % 10)] := by
        unfold pyFloatStrS
        rw [if_neg h1, if_neg h2]
      have hdm := Nat.div_add_mod c 100
      have hdm2 := Nat.div_add_mod (c % 100) 10
      have hmm : c % 100 % 10 = c % 10 := Nat.mod_mod_of_dvd c (by norm_num)
      have hlt : c % 100 < 100 := Nat.mod_lt _ (by norm_num)
      have hfc : fracCents [digitChar (c % 100 / 10), digitChar (c % 10)] = c % 100 := by
        show 10 * digitVal (digitChar (c % 100 / 10)) + digitVal (digitChar (c % 10)) = c % 100
        rw [digitVal_digitChar (by omega), digitVal_digitChar (Nat.mod_lt _ (by norm_num))]
        omega
      rw [hfs, extractAmountL_etb2 (c / 100) _ _ (digitChar_isDigit (by omega))
          (digitChar_isDigit (Nat.mod_lt _ (by norm_num))) (by rw [hfc]; omega)]
      have hcc : 100 * (c / 100) +
          fracCents [digitChar (c % 100 / 10), digitChar (c % 10)] = c := by
        rw [hfc]
        omega
      rw [hcc]
      rfl
  · intro c hc h2 h1 hv
    unfold extract_amount_from_receipt
    rw [hdata c]
    have hlt : c % 100 < 100 := Nat.mod_lt _ (by norm_num)
    have hfs : pyFloatStrS c = natToChars (c / 100) ++ '.' :: [digitChar (c % 100 / 10)] := by
      unfold pyFloatStrS
      rw [if_neg h1, if_pos h2]
    rw [hfs, extractAmountL_etb1 (c / 100) _ (digitChar_isDigit (by omega)) hv]
    rfl

/-- C9 amended witness: 100.99 re-extracts to itself, while 250.5 (a
single nonzero tenths digit) re-extracts to the whole-birr 250.0. -/
theorem C9_rewrap_idempotence_amended_witness :
    (5000 < 10099 ∧ (10099 % 10 ≠ 0 ∨ 10099 % 100 = 0) ∧
      extract_amount_from_receipt ("ETB " ++ pyFloatStr 10099) = pyFloatStr 10099) ∧
    (5000 < 25050 ∧ 25050 % 10 = 0 ∧ 25050 % 100 ≠ 0 ∧ 5000 < 100 * (25050 / 100) ∧
      extract_amount_from_receipt ("ETB " ++ pyFloatStr 25050) =
        pyFloatStr (100 * (25050 / 100))) := by
  constructor
  · exact ⟨by decide, by decide,
      C9_rewrap_idempotence_amended.1 10099 (by decide) (by decide)⟩
  · exact ⟨by decide, by decide, by decide, by decide,
      C9_rewrap_idempotence_amended.2 25050 (by decide) (by decide) (by decide) (by decide)⟩

end ReceiptBot
